import Mathlib

/-!
Verification development for the schema-generator content pipeline
(`src/lib/utils.ts`, `src/lib/scraper.ts`).

JavaScript values flowing through the cleaner are modelled by the mutual
inductive family `Val` / `ValList` / `ValFields` below: `ValFields` is an
association list in insertion order whose keys are pairwise distinct, the
way keys of a JavaScript object are.  JavaScript numbers are modelled as
exact rationals (IEEE double rounding is not modelled; all inputs exercised
here are short decimal literals that a double represents faithfully enough
for string round-trips).  A JavaScript `TypeError` (for example calling
`.trim()` on a number) is modelled by `Option`: functions that can throw
return `none` in exactly the situations in which the source throws.
-/

set_option maxRecDepth 4000
set_option autoImplicit false

namespace SchemaGen

/-- ASCII lowercasing of one character (the inputs handled here are ASCII;
the Unicode cases of `String.prototype.toLowerCase` are not exercised). -/
def lowerChar (c : Char) : Char :=
  if 'A' ≤ c && c ≤ 'Z' then Char.ofNat (c.toNat + 32) else c


/-- `s.toLowerCase()`. -/
def jsLower (s : String) : String :=
  ⟨s.data.map lowerChar⟩


/-- Whitespace for the purposes of `String.prototype.trim` (ASCII subset;
the exotic Unicode space characters are not exercised here). -/
def isWs (c : Char) : Bool :=
  c == ' ' || c == '\t' || c == '\n' || c == '\r' || c.toNat == 11 || c.toNat == 12


/-- `s.trim()`. -/
def jsTrim (s : String) : String :=
  ⟨((s.data.dropWhile isWs).reverse.dropWhile isWs).reverse⟩


/-- ASCII uppercasing of one character. -/
def upperChar (c : Char) : Char :=
  if 'a' ≤ c && c ≤ 'z' then Char.ofNat (c.toNat - 32) else c


/-- Value of a list of decimal digit characters (`parseInt` on digits). -/
def digitsVal (l : List Char) : Nat :=
  l.foldl (fun n c => n * 10 + (c.toNat - 48)) 0


/-- An exact decimal number `num / 10 ^ exp`, the result of parsing a decimal
literal (kept unnormalized so that all arithmetic is integer arithmetic). -/
structure Dec where
  num : ℤ
  exp : ℕ
deriving DecidableEq


/-- The rational value of a parsed decimal. -/
def Dec.toRat (d : Dec) : ℚ :=
  (d.num : ℚ) / (10 : ℚ) ^ d.exp


/-- `d < c` for an integer bound `c`, by cross-multiplication. -/
def Dec.ltInt (d : Dec) (c : ℤ) : Bool :=
  d.num < c * 10 ^ d.exp


/-- `c < d` for an integer bound `c`, by cross-multiplication. -/
def Dec.gtInt (d : Dec) (c : ℤ) : Bool :=
  c * 10 ^ d.exp < d.num


/-- `parseFloat(s)` on decimal literals: leading whitespace, optional sign,
digits with an optional fraction, trailing junk ignored; `none` is NaN.
Exponent notation and `Infinity` are not exercised by this pipeline and are
not modelled; values are exact (double rounding is not modelled). -/
def jsParseFloat (s : String) : Option Dec :=
  let cs := s.data.dropWhile isWs
  let sign : ℤ := match cs with
    | '-' :: _ => -1
    | _ => 1
  let cs1 := match cs with
    | '-' :: t => t
    | '+' :: t => t
    | _ => cs
  let ip := cs1.takeWhile Char.isDigit
  let cs2 := cs1.dropWhile Char.isDigit
  let fp := match cs2 with
    | '.' :: t => t.takeWhile Char.isDigit
    | _ => []
  if ip.isEmpty && fp.isEmpty then none
  else some ⟨sign * ((digitsVal ip : ℤ) * 10 ^ fp.length + (digitsVal fp : ℤ)), fp.length⟩


/-- Decimal digits of a natural number (fuel-structural so that the kernel
can evaluate it; `n + 1` fuel always suffices). -/
def natToStrAux : ℕ → ℕ → List Char
  | 0, _ => []
  | f + 1, n =>
      if n < 10 then [Char.ofNat (48 + n)]
      else natToStrAux f (n / 10) ++ [Char.ofNat (48 + n % 10)]

/-- `Number.prototype.toString` on a natural number. -/
def natToStr (n : ℕ) : String :=
  ⟨natToStrAux (n + 1) n⟩

/-- `Number.prototype.toString` on an integer. -/
def intToStr (i : ℤ) : String :=
  (if i < 0 then "-" else "") ++ natToStr i.natAbs

/-- Drop trailing decimal zeros of `num / 10 ^ exp`. -/
def stripZeros : ℤ → ℕ → ℤ × ℕ
  | n, 0 => (n, 0)
  | n, k + 1 => if n % 10 == 0 then stripZeros (n / 10) k else (n, k + 1)


/-- Left-pad a digit string with zeros to width `k`. -/
def padZeros (k : Nat) (s : String) : String :=
  ⟨List.replicate (k - s.data.length) '0' ++ s.data⟩


/-- `Number.prototype.toString` on a parsed decimal: minimal decimal form,
no decimal point when the value is an integer. -/
def decToString (d : Dec) : String :=
  match stripZeros d.num d.exp with
  | (n, 0) => intToStr n
  | (n, k) =>
      let a := n.natAbs
      (if n < 0 then "-" else "") ++ natToStr (a / 10 ^ k) ++ "." ++
        padZeros k (natToStr (a % 10 ^ k))


/-- `parseInt(s)` in base 10: leading whitespace, optional sign, leading
digits; `none` is NaN.  The hexadecimal prefix corner is not modelled. -/
def jsParseInt (s : String) : Option ℤ :=
  let cs := s.data.dropWhile isWs
  let sign : ℤ := match cs with
    | '-' :: _ => -1
    | _ => 1
  let cs1 := match cs with
    | '-' :: t => t
    | '+' :: t => t
    | _ => cs
  let ip := cs1.takeWhile Char.isDigit
  if ip.isEmpty then none
  else some (sign * (digitsVal ip : ℤ))


mutual
/-- JavaScript value tree: null, booleans, numbers, strings, arrays, objects.
`undefined` never needs to be stored: the source only ever materialises it
transiently, in positions where it is observationally equal to key absence. -/
inductive Val where
  | vNull : Val
  | vBool : Bool → Val
  | vNum : Dec → Val
  | vStr : String → Val
  | vArr : ValList → Val
  | vObj : ValFields → Val
  deriving DecidableEq

/-- Array elements, in order. -/
inductive ValList where
  | nil : ValList
  | cons : Val → ValList → ValList
  deriving DecidableEq

/-- Object fields, in insertion order, keys pairwise distinct. -/
inductive ValFields where
  | fnil : ValFields
  | fcons : String → Val → ValFields → ValFields
  deriving DecidableEq
end

open Val ValList ValFields


/-- JavaScript truthiness of a value. -/
def truthy : Val → Bool
  | vNull => false
  | vBool b => b
  | vNum d => d.num != 0
  | vStr s => s != ""
  | vArr _ => true
  | vObj _ => true


/-- Truthiness of `obj.key`, where a missing key reads as `undefined`. -/
def truthyO : Option Val → Bool
  | none => false
  | some v => truthy v


/-- First binding of a key in an object (keys are distinct in real objects). -/
def getF : ValFields → String → Option Val
  | fnil, _ => none
  | fcons k v rest, key => if k == key then some v else getF rest key


/-- `obj[key] = v`: update in place if the key exists, else append. -/
def setF : ValFields → String → Val → ValFields
  | fnil, key, v => fcons key v fnil
  | fcons k w rest, key, v =>
      if k == key then fcons k v rest else fcons k w (setF rest key v)


/-- `delete obj[key]`. -/
def delF : ValFields → String → ValFields
  | fnil, _ => fnil
  | fcons k w rest, key =>
      if k == key then delF rest key else fcons k w (delF rest key)


/-- `x || ''` over an optional field read. -/
def orEmptyStr (o : Option Val) : Val :=
  match o with
  | some v => if truthy v then v else vStr ""
  | none => vStr ""


/-- `obj.addressCountry || 'US'`. -/
def orUS (o : Option Val) : Val :=
  match o with
  | some v => if truthy v then v else vStr "US"
  | none => vStr "US"


/-- `v === "s"` for a string literal on the right. -/
def valEqStr (v : Val) (s : String) : Bool :=
  match v with
  | vStr t => t == s
  | _ => false


/-- Substring test on character lists (semantics of `String.prototype.includes`). -/
def containsSub : List Char → List Char → Bool
  | [], needle => needle.isEmpty
  | c :: t, needle => needle.isPrefixOf (c :: t) || containsSub t needle


/-- `hay.includes(needle)`. -/
def strIncludes (hay needle : String) : Bool :=
  containsSub hay.data needle.data


/-- City cost-of-living table `cityPriceMapping` from the source. -/
def cityPriceMapping : List (String × String) :=
  [("new york", "$$$$"), ("manhattan", "$$$$"), ("san francisco", "$$$$"),
   ("palo alto", "$$$$"), ("cupertino", "$$$$"), ("mountain view", "$$$$"),
   ("beverly hills", "$$$$"), ("monaco", "$$$$"), ("hong kong", "$$$$"),
   ("zurich", "$$$$"), ("geneva", "$$$$"),
   ("los angeles", "$$$"), ("seattle", "$$$"), ("boston", "$$$"),
   ("washington", "$$$"), ("washington dc", "$$$"), ("chicago", "$$$"),
   ("miami", "$$$"), ("san diego", "$$$"), ("san jose", "$$$"),
   ("oakland", "$$$"), ("denver", "$$$"), ("austin", "$$$"),
   ("portland", "$$$"), ("vancouver", "$$$"), ("toronto", "$$$"),
   ("london", "$$$"), ("paris", "$$$"), ("tokyo", "$$$"),
   ("sydney", "$$$"), ("melbourne", "$$$"),
   ("atlanta", "$$"), ("dallas", "$$"), ("houston", "$$"), ("phoenix", "$$"),
   ("nashville", "$$"), ("charlotte", "$$"), ("raleigh", "$$"), ("tampa", "$$"),
   ("orlando", "$$"), ("las vegas", "$$"), ("salt lake city", "$$"),
   ("minneapolis", "$$"), ("milwaukee", "$$"), ("indianapolis", "$$"),
   ("columbus", "$$"), ("cincinnati", "$$"), ("pittsburgh", "$$"),
   ("baltimore", "$$"), ("richmond", "$$"), ("jacksonville", "$$"),
   ("san antonio", "$$"), ("fort worth", "$$"), ("albuquerque", "$$"),
   ("tucson", "$$"), ("sacramento", "$$"), ("fresno", "$$"),
   ("detroit", "$"), ("cleveland", "$"), ("buffalo", "$"), ("kansas city", "$"),
   ("oklahoma city", "$"), ("tulsa", "$"), ("memphis", "$"), ("birmingham", "$"),
   ("little rock", "$"), ("jackson", "$"), ("shreveport", "$"), ("mobile", "$"),
   ("montgomery", "$"), ("huntsville", "$"), ("chattanooga", "$"),
   ("knoxville", "$"), ("louisville", "$"), ("lexington", "$"), ("toledo", "$"),
   ("akron", "$"), ("youngstown", "$"), ("dayton", "$"), ("fort wayne", "$"),
   ("evansville", "$"), ("peoria", "$"), ("rockford", "$"), ("green bay", "$"),
   ("des moines", "$"), ("cedar rapids", "$"), ("sioux city", "$"),
   ("fargo", "$"), ("bismarck", "$"), ("rapid city", "$"), ("billings", "$"),
   ("great falls", "$"), ("boise", "$"), ("spokane", "$"), ("yakima", "$")]


/-- Category default table `businessTypePriceMapping` from the source. -/
def businessTypePriceMapping : List (String × String) :=
  [("LegalService", "$$$"), ("MedicalBusiness", "$$$"), ("DentalBusiness", "$$"),
   ("Restaurant", "$$"), ("HVACBusiness", "$$"), ("ProfessionalService", "$$"),
   ("HomeAndConstructionBusiness", "$$"), ("AutomotiveBusiness", "$"),
   ("LocalBusiness", "$$")]


/-- The textual price indicator computed inside `detectPriceRange`:
keyword scan over the lowercased concatenation of name and description,
empty string when no keyword fires. -/
def textualPriceIndicator (businessName description : Option String) : String :=
  let textualContent := jsLower ((businessName.getD "") ++ " " ++ (description.getD ""))
  if strIncludes textualContent "luxury" || strIncludes textualContent "premium" ||
     strIncludes textualContent "exclusive" || strIncludes textualContent "high-end" then
    "$$$$"
  else if strIncludes textualContent "upscale" || strIncludes textualContent "boutique" ||
     strIncludes textualContent "sophisticated" then
    "$$$"
  else if strIncludes textualContent "affordable" || strIncludes textualContent "budget" ||
     strIncludes textualContent "discount" || strIncludes textualContent "cheap" then
    "$"
  else if strIncludes textualContent "value" || strIncludes textualContent "reasonable" ||
     strIncludes textualContent "moderate" then
    "$$"
  else
    ""


/-- `detectPriceRange(city, businessType, businessName?, description?)` from
`src/lib/utils.ts`.  An absent optional argument is `none`; `x || ''` maps
both absence and the empty string to the empty string. -/
def detectPriceRange (city businessType : String)
    (businessName description : Option String) : String :=
  if city == "" then "$$"
  else
    let cityLower := jsTrim (jsLower city)
    let cityPriceRange := cityPriceMapping.lookup cityLower
    let businessTypePriceRange := businessTypePriceMapping.lookup businessType
    let ind := textualPriceIndicator businessName description
    if ind != "" then ind
    else
      match cityPriceRange with
      | some p => p
      | none =>
          match businessTypePriceRange with
          | some p => p
          | none => "$$"


/-- `phone.replace(/\D/g, "")`: keep only ASCII decimal digits. -/
def jsDigits (s : String) : String :=
  ⟨s.data.filter Char.isDigit⟩


/-- `s.slice(a, b)` for `0 ≤ a ≤ b` within range. -/
def jsSlice (s : String) (a b : Nat) : String :=
  ⟨(s.data.drop a).take (b - a)⟩


/-- `s.slice(a)`. -/
def jsSliceFrom (s : String) (a : Nat) : String :=
  ⟨s.data.drop a⟩


/-- `s.startsWith(p)`. -/
def jsStartsWith (s p : String) : Bool :=
  p.data.isPrefixOf s.data


/-- `formatPhoneNumber(phone)` from `src/lib/utils.ts`. -/
def formatPhoneNumber (phone : String) : String :=
  if phone == "" then phone
  else
    let digits := jsDigits phone
    if digits.data.length == 10 then
      "+1-" ++ jsSlice digits 0 3 ++ "-" ++ jsSlice digits 3 6 ++ "-" ++ jsSliceFrom digits 6
    else if digits.data.length == 11 && jsStartsWith digits "1" then
      "+" ++ jsSlice digits 0 1 ++ "-" ++ jsSlice digits 1 4 ++ "-" ++ jsSlice digits 4 7 ++
        "-" ++ jsSliceFrom digits 7
    else if 10 ≤ digits.data.length && digits.data.length ≤ 11 &&
        (jsStartsWith digits "44" || jsStartsWith digits "0") then
      let cleanDigits := if jsStartsWith digits "44" then digits else "44" ++ jsSliceFrom digits 1
      "+" ++ jsSlice cleanDigits 0 2 ++ "-" ++ jsSlice cleanDigits 2 5 ++ "-" ++
        jsSlice cleanDigits 5 8 ++ "-" ++ jsSliceFrom cleanDigits 8
    else if 7 ≤ digits.data.length then jsTrim phone
    else phone


/-- Word character for the regex `\b` boundary: `[A-Za-z0-9_]`. -/
def isWordChar (c : Char) : Bool :=
  c.isAlphanum || c == '_'


/-- A `\b` boundary holds after a match if the input ends or continues with a
non-word character (every pattern here ends in a word character). -/
def boundaryAfter : List Char → Bool
  | [] => true
  | c :: _ => !isWordChar c


/-- A `\b` boundary holds before a match if there is no previous character or
the previous character is a non-word character (every pattern here starts with
a word character). -/
def boundaryOK : Option Char → Bool
  | none => true
  | some p => !isWordChar p


/-- Consume exactly `n` decimal digits, returning them and the rest. -/
def digitsN : Nat → List Char → Option (List Char × List Char)
  | 0, cs => some ([], cs)
  | _ + 1, [] => none
  | n + 1, c :: cs =>
      if c.isDigit then
        match digitsN n cs with
        | some (d, r) => some (c :: d, r)
        | none => none
      else none


/-- Matcher for the US pattern `\d{5}(-\d{4})?\b` at the current position
(greedy optional group first, then the five-digit fallback, as the regex
engine backtracks). -/
def tryUSAt (cs : List Char) : Option (List Char) :=
  match digitsN 5 cs with
  | none => none
  | some (d5, rest) =>
      match rest with
      | '-' :: rest2 =>
          (match digitsN 4 rest2 with
           | some (d4, rest3) =>
               if boundaryAfter rest3 then some (d5 ++ '-' :: d4)
               else if boundaryAfter rest then some d5 else none
           | none => if boundaryAfter rest then some d5 else none)
      | _ => if boundaryAfter rest then some d5 else none


/-- Matcher for `\d{n}\b` (AU uses n = 4, DE and FR use n = 5). -/
def tryDigitsOnlyAt (n : Nat) (cs : List Char) : Option (List Char) :=
  match digitsN n cs with
  | some (d, r) => if boundaryAfter r then some d else none
  | none => none


/-- Matcher for the CA pattern `[A-Z]\d[A-Z]\s*\d[A-Z]\d\b` with the `i` flag
(letters of either case). -/
def tryCAAt (cs : List Char) : Option (List Char) :=
  match cs with
  | a :: b :: c :: rest =>
      if a.isAlpha && b.isDigit && c.isAlpha then
        let sp := rest.takeWhile isWs
        match rest.dropWhile isWs with
        | d :: e :: f :: r3 =>
            if d.isDigit && e.isAlpha && f.isDigit && boundaryAfter r3 then
              some (a :: b :: c :: (sp ++ [d, e, f]))
            else none
        | _ => none
      else none
  | _ => none


/-- Tail of the UK pattern after `[A-Z]{1,2}\d[A-Z\d]?`: `\s*\d[A-Z]{2}\b`. -/
def ukTail (rest : List Char) : Option (List Char) :=
  let sp := rest.takeWhile isWs
  match rest.dropWhile isWs with
  | d :: a :: b :: r3 =>
      if d.isDigit && a.isAlpha && b.isAlpha && boundaryAfter r3 then
        some (sp ++ [d, a, b])
      else none
  | _ => none


/-- UK pattern after the leading letters: `\d[A-Z\d]?\s*\d[A-Z]{2}\b`, with the
optional character tried greedily first. -/
def ukCore (letters rest : List Char) : Option (List Char) :=
  match rest with
  | d :: rest2 =>
      if d.isDigit then
        match rest2 with
        | x :: rest3 =>
            if x.isAlpha || x.isDigit then
              match ukTail rest3 with
              | some t => some (letters ++ d :: x :: t)
              | none =>
                  match ukTail rest2 with
                  | some t => some (letters ++ d :: t)
                  | none => none
            else
              match ukTail rest2 with
              | some t => some (letters ++ d :: t)
              | none => none
        | [] =>
            match ukTail rest2 with
            | some t => some (letters ++ d :: t)
            | none => none
      else none
  | [] => none


/-- Matcher for the UK pattern `[A-Z]{1,2}\d[A-Z\d]?\s*\d[A-Z]{2}\b` with the
`i` flag, two leading letters preferred over one. -/
def tryUKAt (cs : List Char) : Option (List Char) :=
  match cs with
  | a :: rest =>
      if a.isAlpha then
        match rest with
        | b :: rest2 =>
            if b.isAlpha then
              match ukCore [a, b] rest2 with
              | some m => some m
              | none => ukCore [a] rest
            else ukCore [a] rest
        | [] => ukCore [a] rest
      else none
  | [] => none


/-- Left-to-right scan of `regex.test` / `text.match(pattern)`: try the
pattern at every position whose preceding character allows a `\b` boundary,
returning the leftmost match. -/
def scanMatch (tryAt : List Char → Option (List Char)) :
    Option Char → List Char → Option (List Char)
  | prev, [] => if boundaryOK prev then tryAt [] else none
  | prev, c :: t =>
      match (if boundaryOK prev then tryAt (c :: t) else none) with
      | some m => some m
      | none => scanMatch tryAt (some c) t


/-- `postalCodePatterns[country] || postalCodePatterns.US` from the source. -/
def patternFor (country : String) : List Char → Option (List Char) :=
  if country == "US" then tryUSAt
  else if country == "CA" then tryCAAt
  else if country == "UK" then tryUKAt
  else if country == "AU" then tryDigitsOnlyAt 4
  else if country == "DE" then tryDigitsOnlyAt 5
  else if country == "FR" then tryDigitsOnlyAt 5
  else tryUSAt


/-- `extractPostalCode(text, country)` from `src/lib/utils.ts`: first match of
the regional pattern, trimmed.  (Assigning `undefined` on failure is
observationally the same as leaving the key untouched downstream.) -/
def extractPostalCode (text : String) (country : String) : Option String :=
  if text == "" then none
  else
    match scanMatch (patternFor country) none text.data with
    | some m => some (jsTrim ⟨m⟩)
    | none => none


/-- `isValidPostalCode(postalCode, country)` from `src/lib/utils.ts`:
`pattern.test` after resetting `lastIndex`, i.e. a substring search. -/
def isValidPostalCode (postalCode : String) (country : String) : Bool :=
  if postalCode == "" then false
  else (scanMatch (patternFor country) none postalCode.data).isSome


/-- The character preceding the current scan position after walking `pre`. -/
def lastOpt (prev : Option Char) : List Char → Option Char
  | [] => prev
  | c :: t => lastOpt (some c) t


/-- Spec-side notion (for the full-match reading of the claim): a string that
is entirely a US code, `\d{5}(-\d{4})?`. -/
def usCodeSpec (code : List Char) : Bool :=
  match digitsN 5 code with
  | some (_, rest) =>
      rest == [] ||
      (match rest with
       | '-' :: r2 =>
           (match digitsN 4 r2 with
            | some (_, r3) => r3 == []
            | none => false)
       | _ => false)
  | none => false


/-- Spec-side full CA code, `[A-Z]\d[A-Z]\s*\d[A-Z]\d` with the `i` flag. -/
def caCodeSpec (code : List Char) : Bool :=
  match code with
  | a :: b :: c :: rest =>
      a.isAlpha && b.isDigit && c.isAlpha &&
      (match rest.dropWhile isWs with
       | [d, e, f] => d.isDigit && e.isAlpha && f.isDigit
       | _ => false)
  | _ => false


/-- Spec-side tail of a full UK code, `\s*\d[A-Z]{2}`. -/
def ukTailSpec (rest : List Char) : Bool :=
  match rest.dropWhile isWs with
  | [d, a, b] => d.isDigit && a.isAlpha && b.isAlpha
  | _ => false


/-- Spec-side full UK code after the leading letters, `\d[A-Z\d]?\s*\d[A-Z]{2}`. -/
def ukAfterLetters : List Char → Bool
  | d :: rest =>
      d.isDigit &&
      (ukTailSpec rest ||
        (match rest with
         | x :: rest2 => (x.isAlpha || x.isDigit) && ukTailSpec rest2
         | [] => false))
  | [] => false


/-- Spec-side full UK code, `[A-Z]{1,2}\d[A-Z\d]?\s*\d[A-Z]{2}` with `i`. -/
def ukCodeSpec (code : List Char) : Bool :=
  match code with
  | a :: rest =>
      a.isAlpha &&
      (ukAfterLetters rest ||
        (match rest with
         | b :: rest2 => b.isAlpha && ukAfterLetters rest2
         | [] => false))
  | [] => false


/-- Spec-side full `\d{n}` code (AU uses n = 4, DE and FR use n = 5). -/
def digitsOnlyCodeSpec (n : Nat) (code : List Char) : Bool :=
  match digitsN n code with
  | some (_, rest) => rest == []
  | none => false


/-- A string that is entirely a valid code of the region whose pattern
`patternFor` registers for `country` (the US shape for unknown countries). -/
def regionCodeSpec (country : String) (code : List Char) : Bool :=
  if country == "CA" then caCodeSpec code
  else if country == "UK" then ukCodeSpec code
  else if country == "AU" then digitsOnlyCodeSpec 4 code
  else if country == "DE" then digitsOnlyCodeSpec 5 code
  else if country == "FR" then digitsOnlyCodeSpec 5 code
  else usCodeSpec code


/-- `/^\$+$/.test(s)`: a nonempty string consisting only of dollar signs. -/
def isAllDollars (s : String) : Bool :=
  !s.data.isEmpty && s.data.all (fun c => c == '$')


/-- `s.match(/\$+/)`: the first maximal run of dollar signs, if any. -/
def dollarRunAux : List Char → Option (List Char)
  | [] => none
  | c :: t =>
      if c == '$' then some (c :: t.takeWhile (fun d => d == '$'))
      else dollarRunAux t


/-- First dollar-sign run of a string. -/
def firstDollarRun (s : String) : Option String :=
  match dollarRunAux s.data with
  | some r => some ⟨r⟩
  | none => none


/-- `validatePriceRange(priceRange)` from `src/lib/utils.ts`. -/
def validatePriceRange (priceRange : String) : String :=
  if priceRange == "" then priceRange
  else
    let cleaned := jsTrim priceRange
    if isAllDollars cleaned then cleaned
    else
      let lowerPrice := jsLower cleaned
      if strIncludes lowerPrice "luxury" || strIncludes lowerPrice "exclusive" ||
         strIncludes lowerPrice "premium" || strIncludes lowerPrice "very expensive" then
        "$$$$"
      else if strIncludes lowerPrice "expensive" || strIncludes lowerPrice "upscale" ||
         strIncludes lowerPrice "high-end" then
        "$$$"
      else if strIncludes lowerPrice "moderate" || strIncludes lowerPrice "mid-range" ||
         strIncludes lowerPrice "reasonable" then
        "$$"
      else if strIncludes lowerPrice "inexpensive" || strIncludes lowerPrice "cheap" ||
         strIncludes lowerPrice "budget" || strIncludes lowerPrice "affordable" then
        "$"
      else
        match firstDollarRun cleaned with
        | some run => run
        | none => "$$"


/-- Hour part of the time regex `([0-1]?[0-9]|2[0-3])` (whole-part match). -/
def hourOK : List Char → Bool
  | [d] => d.isDigit
  | [d1, d2] =>
      ((d1 == '0' || d1 == '1') && d2.isDigit) || (d1 == '2' && ('0' ≤ d2 && d2 ≤ '3'))
  | _ => false


/-- Minute part of the time regex `[0-5][0-9]` (whole-part match). -/
def minuteOK : List Char → Bool
  | [m1, m2] => ('0' ≤ m1 && m1 ≤ '5') && m2.isDigit
  | _ => false


/-- `isValidTimeFormat(time)` from `src/lib/utils.ts`:
`/^([0-1]?[0-9]|2[0-3]):[0-5][0-9]$/` on the trimmed string. -/
def isValidTimeFormat (time : String) : Bool :=
  if time == "" then false
  else
    let cs := (jsTrim time).data
    let pre := cs.takeWhile (fun c => c != ':')
    match cs.dropWhile (fun c => c != ':') with
    | ':' :: post => hourOK pre && minuteOK post
    | _ => false


/-- `s.split('\n')` on character lists. -/
def splitOnNl : List Char → List (List Char)
  | [] => [[]]
  | c :: t =>
      if c = '\n' then [] :: splitOnNl t
      else
        match splitOnNl t with
        | h :: r => (c :: h) :: r
        | [] => [[c]]


/-- Day-name normalization table `dayMapping` from `formatBusinessHours`. -/
def dayMapping : List (String × String) :=
  [("monday", "Monday"), ("tuesday", "Tuesday"), ("wednesday", "Wednesday"),
   ("thursday", "Thursday"), ("friday", "Friday"), ("saturday", "Saturday"),
   ("sunday", "Sunday"), ("mon", "Monday"), ("tue", "Tuesday"),
   ("wed", "Wednesday"), ("thu", "Thursday"), ("fri", "Friday"),
   ("sat", "Saturday"), ("sun", "Sunday")]


/-- One opening-hours record (`@type: OpeningHoursSpecification` payload). -/
structure HoursSpec where
  dayOfWeek : String
  opens : String
  closes : String
deriving DecidableEq


/-- Match `^([^:]+):\s*([^-]+)-(.+)$` against one line, returning the day
part and the two time parts. -/
def parseLineA (cs : List Char) : Option (List Char × List Char × List Char) :=
  let day := cs.takeWhile (fun c => c != ':')
  match cs.dropWhile (fun c => c != ':') with
  | ':' :: rest =>
      if day.isEmpty then none
      else
        let rest2 := rest.dropWhile isWs
        let t1 := rest2.takeWhile (fun c => c != '-')
        match rest2.dropWhile (fun c => c != '-') with
        | '-' :: t2 =>
            if t1.isEmpty || t2.isEmpty then none else some (day, t1, t2)
        | _ => none
  | _ => none


/-- Match `^([^-]+)-([^:]+):\s*([^-]+)-(.+)$` against one line, returning the
two day parts and the two time parts. -/
def parseLineB (cs : List Char) :
    Option (List Char × List Char × List Char × List Char) :=
  let d1 := cs.takeWhile (fun c => c != '-')
  match cs.dropWhile (fun c => c != '-') with
  | '-' :: rest =>
      if d1.isEmpty then none
      else
        let d2 := rest.takeWhile (fun c => c != ':')
        match rest.dropWhile (fun c => c != ':') with
        | ':' :: rest2 =>
            if d2.isEmpty then none
            else
              let rest3 := rest2.dropWhile isWs
              let t1 := rest3.takeWhile (fun c => c != '-')
              match rest3.dropWhile (fun c => c != '-') with
              | '-' :: t2 =>
                  if t1.isEmpty || t2.isEmpty then none else some (d1, d2, t1, t2)
              | _ => none
        | _ => none
  | _ => none


/-- The `Monday-Friday` range branch of `formatBusinessHours` for one line. -/
def lineRangeSpecs (l : List Char) : List HoursSpec :=
  match parseLineB l with
  | some (d1, d2, t1, t2) =>
      let days : List String :=
        if strIncludes (jsLower (jsTrim ⟨d1⟩)) "mon" &&
           strIncludes (jsLower (jsTrim ⟨d2⟩)) "fri" then
          ["Monday", "Tuesday", "Wednesday", "Thursday", "Friday"]
        else []
      let opens := jsTrim ⟨t1⟩
      let closes := jsTrim ⟨t2⟩
      if isValidTimeFormat opens && isValidTimeFormat closes then
        days.map (fun d => ⟨d, opens, closes⟩)
      else []
  | none => []


/-- `formatBusinessHours` on one line: the single-day shape first, falling
through to the day-range shape, dropping the line when neither validates. -/
def lineToSpecs (l : List Char) : List HoursSpec :=
  match parseLineA l with
  | some (day, t1, t2) =>
      let normalizedDay :=
        match dayMapping.lookup (jsLower (jsTrim ⟨day⟩)) with
        | some d => d
        | none => jsTrim ⟨day⟩
      let opens := jsTrim ⟨t1⟩
      let closes := jsTrim ⟨t2⟩
      if isValidTimeFormat opens && isValidTimeFormat closes then
        [⟨normalizedDay, opens, closes⟩]
      else lineRangeSpecs l
  | none => lineRangeSpecs l


/-- `formatBusinessHours(hoursInput)` from `src/lib/utils.ts`: split into
nonblank lines, parse each, flatten, drop failures (`undefined` for falsy
input). -/
def formatBusinessHours (hoursInput : String) : Option (List HoursSpec) :=
  if hoursInput == "" then none
  else
    let lines := (splitOnNl hoursInput.data).filter (fun l => jsTrim ⟨l⟩ != "")
    some ((lines.map lineToSpecs).flatten)


/-- `capitalize(str)` from `src/lib/scraper.ts`: first character uppercased,
the rest lowercased. -/
def capitalize (s : String) : String :=
  match s.data with
  | [] => ""
  | c :: t => ⟨upperChar c :: t.map lowerChar⟩


/-- Two-digit zero padding (`hour.toString().padStart(2, '0')`). -/
def padTwo (n : Nat) : String :=
  if n < 10 then "0" ++ toString n else toString n


/-- AM/PM detector: the optional `(AM|PM)` group with the `i` flag; returns
the lowercased period letter and the rest. -/
def periodOf (r : List Char) : Option (Char × List Char) :=
  match r with
  | a :: m :: rest =>
      if (lowerChar a == 'a' || lowerChar a == 'p') && lowerChar m == 'm' then
        some (lowerChar a, rest)
      else none
  | _ => none


/-- Minutes, optional whitespace and optional period after the colon of the
time regex `(\d{1,2}):(\d{2})\s*(AM|PM)?`. -/
def afterColon (r : List Char) : Option (List Char × Option Char) :=
  match r with
  | m1 :: m2 :: rest =>
      if m1.isDigit && m2.isDigit then
        let rest2 := rest.dropWhile isWs
        match periodOf rest2 with
        | some (p, _) => some ([m1, m2], some p)
        | none => some ([m1, m2], none)
      else none
  | _ => none


/-- `(\d{1,2}):(\d{2})\s*(AM|PM)?` at the current position: hour digits
(two preferred, then one), minute digits, optional period. -/
def tryTimeAt (cs : List Char) : Option (List Char × List Char × Option Char) :=
  match cs with
  | d1 :: d2 :: ':' :: rest =>
      if d1.isDigit && d2.isDigit then
        match afterColon rest with
        | some (m, p) => some ([d1, d2], m, p)
        | none => none
      else none
  | d1 :: ':' :: rest =>
      if d1.isDigit then
        match afterColon rest with
        | some (m, p) => some ([d1], m, p)
        | none => none
      else none
  | _ => none


/-- Scan for the first occurrence of the time pattern (no anchors). -/
def scanTime : List Char → Option (List Char × List Char × Option Char)
  | [] => none
  | c :: t =>
      match tryTimeAt (c :: t) with
      | some r => some r
      | none => scanTime t


/-- `convertTo24Hour(time)` from `src/lib/scraper.ts`. -/
def convertTo24Hour (time : String) : String :=
  match scanTime time.data with
  | none => time
  | some (hd, md, p) =>
      let hour := digitsVal hd
      let hour2 :=
        if p == some 'p' && hour != 12 then hour + 12
        else if p == some 'a' && hour == 12 then 0
        else hour
      padTwo hour2 ++ ":" ++ ⟨md⟩


/-- Week starting Monday, as in `getDayRange`. -/
def daysOfWeek : List String :=
  ["Monday", "Tuesday", "Wednesday", "Thursday", "Friday", "Saturday", "Sunday"]


/-- Abbreviation table `dayAbbr` from `getDayRange`. -/
def dayAbbr : List (String × String) :=
  [("Mon", "Monday"), ("Tue", "Tuesday"), ("Wed", "Wednesday"),
   ("Thu", "Thursday"), ("Fri", "Friday"), ("Sat", "Saturday"), ("Sun", "Sunday")]


/-- `getDayRange(start, end)` from `src/lib/scraper.ts`: the inclusive slice
of the week between the two (possibly abbreviated) day names, empty when
either is unknown. -/
def getDayRange (a b : String) : List String :=
  let startDay := (dayAbbr.lookup a).getD a
  let endDay := (dayAbbr.lookup b).getD b
  match daysOfWeek.indexOf? startDay, daysOfWeek.indexOf? endDay with
  | some i, some j => (daysOfWeek.drop i).take (j + 1 - i)
  | _, _ => []


/-- Day-abbreviation alternation `(Mon|Tue|Wed|Thu|Fri|Sat|Sun)` with the `i`
flag: the original three matched characters and the rest. -/
def dayTok (cs : List Char) : Option (String × List Char) :=
  match cs with
  | a :: b :: c :: rest =>
      let low : List Char := [lowerChar a, lowerChar b, lowerChar c]
      if low = "mon".data || low = "tue".data || low = "wed".data ||
         low = "thu".data || low = "fri".data || low = "sat".data ||
         low = "sun".data then
        some (⟨[a, b, c]⟩, rest)
      else none
  | _ => none


/-- Optional literal `(?:day)?` with the `i` flag, consumed greedily. -/
def optDay (cs : List Char) : List Char :=
  match cs with
  | a :: b :: c :: rest =>
      if lowerChar a == 'd' && lowerChar b == 'a' && lowerChar c == 'y' then rest
      else cs
  | _ => cs


/-- The time group `(\d{1,2}:\d{2}\s*(?:AM|PM)?)` at the current position:
the captured text (including any whitespace swallowed before a period) and
the rest. -/
def tryTimeTextAt (cs : List Char) : Option (List Char × List Char) :=
  match tryTimeAt cs with
  | none => none
  | some (hd, md, _) =>
      let core := hd ++ ':' :: md
      let rest0 := cs.drop core.length
      let sp := rest0.takeWhile isWs
      let rest1 := rest0.dropWhile isWs
      match periodOf rest1 with
      | some (_, rest2) => some (core ++ sp ++ rest1.take 2, rest2)
      | none => some (core ++ sp, rest1)


/-- A dash of the class `[-–—]`. -/
def isDash (c : Char) : Bool :=
  c == '-' || c == '–' || c == '—'


/-- `hoursPattern1` from `src/lib/scraper.ts` tried at the current position:
`(Mon|…|Sun)(?:day)?[\s-]*(Mon|…|Sun)?(?:day)?[\s:]*(time)\s*[-–—]\s*(time)`
with greedy, non-backtracking semantics (sufficient for the inputs
exercised).  Returns the two day captures, the two time captures and the
rest of the input after the match. -/
def try1At (cs : List Char) :
    Option (String × Option String × String × String × List Char) :=
  match dayTok cs with
  | none => none
  | some (day1, r1) =>
      let r2 := optDay r1
      let r3 := r2.dropWhile (fun c => isWs c || c == '-')
      let (day2, r4) :=
        match dayTok r3 with
        | some (d2, r) => (some d2, r)
        | none => (none, r3)
      let r5 := optDay r4
      let r6 := r5.dropWhile (fun c => isWs c || c == ':')
      match tryTimeTextAt r6 with
      | none => none
      | some (t1, r7) =>
          let r8 := r7.dropWhile isWs
          match r8 with
          | d :: r9 =>
              if isDash d then
                let r10 := r9.dropWhile isWs
                match tryTimeTextAt r10 with
                | none => none
                | some (t2, r11) => some (day1, day2, ⟨t1⟩, ⟨t2⟩, r11)
              else none
          | [] => none


/-- The `while (match = hoursPattern1.exec(...))` loop: collect matches left
to right, resuming after each match.  The fuel starts at `length + 1`; every
step consumes at least one character, so it never runs out. -/
def scanHours1 (fuel : Nat) (cs : List Char) :
    List (String × Option String × String × String) :=
  match fuel with
  | 0 => []
  | fuel + 1 =>
      match cs with
      | [] => []
      | c :: t =>
          match try1At (c :: t) with
          | some (d1, d2, t1, t2, rest) => (d1, d2, t1, t2) :: scanHours1 fuel rest
          | none => scanHours1 fuel t


/-- The structured opening-hours extraction of `parseHtmlContent`
(`src/lib/scraper.ts` lines 940-959): run `hoursPattern1` over the hours
text, expand day ranges, convert times to 24-hour form. -/
def parseScrapedHours (hoursText : String) : List HoursSpec :=
  ((scanHours1 (hoursText.data.length + 1) hoursText.data).map (fun m =>
    let days := match m.2.1 with
      | some d2 => getDayRange m.1 d2
      | none => [m.1]
    days.map (fun day =>
      (⟨capitalize day, convertTo24Hour m.2.2.1, convertTo24Hour m.2.2.2⟩ : HoursSpec)))).flatten


/-- `isValidEmail(email)` from `src/lib/utils.ts`:
`/^[^\s@]+@[^\s@]+\.[^\s@]+$/` — exactly one `@`, no whitespace, a nonempty
local part, and a dot strictly inside the domain part. -/
def isValidEmail (email : String) : Bool :=
  let cs := email.data
  let a := cs.takeWhile (fun c => c != '@')
  match cs.dropWhile (fun c => c != '@') with
  | '@' :: r =>
      !a.isEmpty && cs.all (fun c => !isWs c) && !r.any (fun c => c == '@') &&
        (r.drop 1).dropLast.any (fun c => c == '.')
  | _ => false


/-- Scheme token of a URL: `[A-Za-z][A-Za-z0-9+.-]*`. -/
def schemeOK : List Char → Bool
  | [] => false
  | c :: t =>
      c.isAlpha && t.all (fun d => d.isAlpha || d.isDigit || d == '+' || d == '-' || d == '.')


/-- `isValidUrl(string)`: acceptance of `new URL(string)`, modelled on the
shapes exercised here — a well-formed scheme followed by a colon, where the
special network schemes additionally require a nonempty host after the
slashes and any other scheme accepts the remainder as an opaque path. -/
def isValidUrl (s : String) : Bool :=
  let cs := s.data
  let sch := cs.takeWhile (fun c => c != ':')
  match cs.dropWhile (fun c => c != ':') with
  | ':' :: rest =>
      if schemeOK sch then
        let low := sch.map lowerChar
        if low = "http".data || low = "https".data || low = "ws".data ||
           low = "wss".data || low = "ftp".data then
          !(rest.dropWhile (fun c => c == '/')).isEmpty
        else true
      else false
  | _ => false


/-- City to ZIP table `commonCityZipMapping` from `inferPostalCodeFromCity`. -/
def commonCityZipMapping : List (String × String) :=
  [("new york", "10001"), ("los angeles", "90001"), ("chicago", "60601"),
   ("houston", "77001"), ("phoenix", "85001"), ("philadelphia", "19101"),
   ("san antonio", "78201"), ("san diego", "92101"), ("dallas", "75201"),
   ("san jose", "95101"), ("austin", "78701"), ("seattle", "98101"),
   ("denver", "80201"), ("washington", "20001"), ("boston", "02101"),
   ("las vegas", "89101"), ("atlanta", "30301"), ("miami", "33101"),
   ("charlotte", "28201"), ("portland", "97201"), ("san francisco", "94101")]


/-- `inferPostalCodeFromCity(city)` from `src/lib/utils.ts`. -/
def inferPostalCodeFromCity (city : String) : Option String :=
  commonCityZipMapping.lookup (jsTrim (jsLower city))


/-- Form fields consumed by `validateFormData`, each an optional string as
delivered by the form layer (`none` is an absent field). -/
structure FormData where
  contentType : Option String := none
  headline : Option String := none
  authorName : Option String := none
  publisherName : Option String := none
  howToName : Option String := none
  name : Option String := none
  description : Option String := none
  streetAddress : Option String := none
  addressLocality : Option String := none
  addressRegion : Option String := none
  postalCode : Option String := none
  addressCountry : Option String := none
  priceRange : Option String := none
  telephone : Option String := none
  email : Option String := none
  websiteUrl : Option String := none
  publisherLogoUrl : Option String := none
  latitude : Option String := none
  longitude : Option String := none
  ratingValue : Option String := none
  reviewCount : Option String := none
deriving DecidableEq


/-- Truthiness of an optional string field. -/
def truthyS : Option String → Bool
  | none => false
  | some s => s != ""


/-- `!field?.trim()`: absent or whitespace-only. -/
def blankS : Option String → Bool
  | none => true
  | some s => jsTrim s == ""


/-- `formData.addressCountry || 'US'`. -/
def countryOr (fd : FormData) : String :=
  match fd.addressCountry with
  | some c => if c != "" then c else "US"
  | none => "US"


/-- `formData.contentType || 'LocalBusiness'`. -/
def contentTypeOr (fd : FormData) : String :=
  match fd.contentType with
  | some c => if c != "" then c else "LocalBusiness"
  | none => "LocalBusiness"


/-- The content-type switch of `validateFormData` lands in the business
branch unless the content type is exactly Article or HowTo. -/
def isBusinessForm (fd : FormData) : Bool :=
  !(fd.contentType == some "Article") && !(fd.contentType == some "HowTo")


/-- Latitude rejection test of `validateFormData`: NaN or outside [-90, 90]. -/
def latInvalid (s : String) : Bool :=
  match jsParseFloat s with
  | none => true
  | some d => d.ltInt (-90) || d.gtInt 90


/-- Longitude rejection test: NaN or outside [-180, 180]. -/
def lngInvalid (s : String) : Bool :=
  match jsParseFloat s with
  | none => true
  | some d => d.ltInt (-180) || d.gtInt 180


/-- Rating rejection test: NaN or outside [1, 5]. -/
def ratingInvalid (s : String) : Bool :=
  match jsParseFloat s with
  | none => true
  | some d => d.ltInt 1 || d.gtInt 5


/-- Review-count rejection test: NaN or below 1. -/
def countInvalid (s : String) : Bool :=
  match jsParseInt s with
  | none => true
  | some c => c < 1


/-- Required-field and postal-code errors of `validateFormData`, in source
order (the content-type branch). -/
def requiredErrors (fd : FormData) (isAiGenerated : Bool) : List String :=
  if fd.contentType == some "Article" then
    (if blankS fd.headline then ["Article headline is required"] else []) ++
    (if blankS fd.authorName then ["Author name is required"] else []) ++
    (if blankS fd.publisherName then ["Publisher name is required"] else [])
  else if fd.contentType == some "HowTo" then
    (if blankS fd.howToName then ["How-to title is required"] else [])
  else
    (if blankS fd.name then ["Business name is required"] else []) ++
    (if blankS fd.description then ["Business description is required"] else []) ++
    (if !isAiGenerated then
      (if blankS fd.streetAddress then ["Street address is required"] else []) ++
      (if blankS fd.addressLocality then ["City is required"] else []) ++
      (if blankS fd.addressRegion then ["State/Region is required"] else [])
     else []) ++
    (match fd.postalCode with
     | some s =>
        if jsTrim s != "" && !isValidPostalCode s (countryOr fd) && !isAiGenerated then
          ["Invalid postal code format"]
        else []
     | none => [])


/-- Email error of `validateFormData` (strict mode only). -/
def emailErrs (fd : FormData) (isAiGenerated : Bool) : List String :=
  match fd.email with
  | some s =>
      if s != "" && !isValidEmail s && !isAiGenerated then ["Invalid email format"] else []
  | none => []


/-- Website URL error (strict mode only). -/
def urlErrs (fd : FormData) (isAiGenerated : Bool) : List String :=
  match fd.websiteUrl with
  | some s =>
      if s != "" && !isValidUrl s && !isAiGenerated then ["Invalid website URL"] else []
  | none => []


/-- Publisher-logo URL error (strict mode only). -/
def logoErrs (fd : FormData) (isAiGenerated : Bool) : List String :=
  match fd.publisherLogoUrl with
  | some s =>
      if s != "" && !isValidUrl s && !isAiGenerated then ["Invalid publisher logo URL"]
      else []
  | none => []


/-- Latitude error (strict mode only). -/
def latErrs (fd : FormData) (isAiGenerated : Bool) : List String :=
  match fd.latitude with
  | some s =>
      if s != "" && latInvalid s && !isAiGenerated then
        ["Invalid latitude (must be between -90 and 90)"]
      else []
  | none => []


/-- Longitude error (strict mode only). -/
def lngErrs (fd : FormData) (isAiGenerated : Bool) : List String :=
  match fd.longitude with
  | some s =>
      if s != "" && lngInvalid s && !isAiGenerated then
        ["Invalid longitude (must be between -180 and 180)"]
      else []
  | none => []


/-- Rating error (strict mode only). -/
def ratingErrs (fd : FormData) (isAiGenerated : Bool) : List String :=
  match fd.ratingValue with
  | some s =>
      if s != "" && ratingInvalid s && !isAiGenerated then
        ["Rating must be between 1 and 5"]
      else []
  | none => []


/-- Review-count error (strict mode only). -/
def countErrs (fd : FormData) (isAiGenerated : Bool) : List String :=
  match fd.reviewCount with
  | some s =>
      if s != "" && countInvalid s && !isAiGenerated then
        ["Review count must be a positive number"]
      else []
  | none => []


/-- Cleaned postal code: dropped when invalid in lenient mode, inferred from
the city in lenient mode when blank (business branch only). -/
def cleanedPostal (fd : FormData) (isAiGenerated : Bool) : Option String :=
  if isBusinessForm fd then
    match fd.postalCode with
    | some s =>
        if jsTrim s != "" then
          if !isValidPostalCode s (countryOr fd) && isAiGenerated then none
          else fd.postalCode
        else inferredPostal fd isAiGenerated
    | none => inferredPostal fd isAiGenerated
  else fd.postalCode
where
  /-- Lenient-mode city-based inference when the postal code is blank. -/
  inferredPostal (fd : FormData) (isAiGenerated : Bool) : Option String :=
    if isAiGenerated && !blankS fd.addressLocality then
      match inferPostalCodeFromCity ((fd.addressLocality).getD "") with
      | some z => some z
      | none => fd.postalCode
    else fd.postalCode


/-- Cleaned price range: auto-detected when blank with a known city
(business branch), then normalized through `validatePriceRange` whenever an
explicit tier was provided. -/
def cleanedPrice (fd : FormData) : Option String :=
  let base :=
    if isBusinessForm fd && !blankS fd.addressLocality && blankS fd.priceRange then
      some (detectPriceRange ((fd.addressLocality).getD "") (contentTypeOr fd)
        fd.name fd.description)
    else fd.priceRange
  match fd.priceRange with
  | some s => if s != "" then some (validatePriceRange s) else base
  | none => base


/-- Cleaned telephone: formatted whenever present and truthy. -/
def cleanedPhone (fd : FormData) : Option String :=
  match fd.telephone with
  | some s => if s != "" then some (formatPhoneNumber s) else fd.telephone
  | none => none


/-- Generic lenient-mode drop for a field with an invalidity test. -/
def droppedIfInvalid (o : Option String) (bad : String → Bool)
    (isAiGenerated : Bool) : Option String :=
  match o with
  | some s => if s != "" && bad s && isAiGenerated then none else o
  | none => none


/-- Result record of `validateFormData`. -/
structure ValidationResult where
  isValid : Bool
  errors : List String
  cleanedData : FormData
deriving DecidableEq


/-- `validateFormData(formData, isAiGenerated)` from `src/lib/utils.ts`.
Errors are listed in source push order; the cleaned data applies the
source's per-field mutations (each touches a distinct field). -/
def validateFormData (fd : FormData) (isAiGenerated : Bool) : ValidationResult :=
  let errors :=
    requiredErrors fd isAiGenerated ++ emailErrs fd isAiGenerated ++
    urlErrs fd isAiGenerated ++ logoErrs fd isAiGenerated ++
    latErrs fd isAiGenerated ++ lngErrs fd isAiGenerated ++
    ratingErrs fd isAiGenerated ++ countErrs fd isAiGenerated
  let cleaned : FormData :=
    { fd with
      postalCode := cleanedPostal fd isAiGenerated
      priceRange := cleanedPrice fd
      telephone := cleanedPhone fd
      email := droppedIfInvalid fd.email (fun s => !isValidEmail s) isAiGenerated
      websiteUrl := droppedIfInvalid fd.websiteUrl (fun s => !isValidUrl s) isAiGenerated
      publisherLogoUrl :=
        droppedIfInvalid fd.publisherLogoUrl (fun s => !isValidUrl s) isAiGenerated
      latitude := droppedIfInvalid fd.latitude latInvalid isAiGenerated
      longitude := droppedIfInvalid fd.longitude lngInvalid isAiGenerated
      ratingValue := droppedIfInvalid fd.ratingValue ratingInvalid isAiGenerated
      reviewCount := droppedIfInvalid fd.reviewCount countInvalid isAiGenerated }
  ⟨errors.isEmpty, errors, cleaned⟩


/-- Concrete form data with six invalid optional fields, used to witness C7. -/
def c7FormDataExample : FormData :=
  { contentType := some "LocalBusiness", name := some "Acme", description := some "d",
    streetAddress := some "1 Main St", addressLocality := some "Austin",
    addressRegion := some "TX", email := some "bad", websiteUrl := some "not a url",
    latitude := some "95", longitude := some "-200", ratingValue := some "9",
    reviewCount := some "0" }

/-- City to state table `cityStateMapping` from `inferStateFromCity`. -/
def cityStateMapping : List (String × String) :=
  [("new york", "NY"), ("los angeles", "CA"), ("chicago", "IL"), ("houston", "TX"),
   ("phoenix", "AZ"), ("philadelphia", "PA"), ("san antonio", "TX"),
   ("san diego", "CA"), ("dallas", "TX"), ("san jose", "CA"), ("austin", "TX"),
   ("jacksonville", "FL"), ("fort worth", "TX"), ("columbus", "OH"),
   ("charlotte", "NC"), ("francisco", "CA"), ("indianapolis", "IN"),
   ("seattle", "WA"), ("denver", "CO"), ("washington", "DC"), ("boston", "MA"),
   ("el paso", "TX"), ("detroit", "MI"), ("nashville", "TN"), ("memphis", "TN"),
   ("portland", "OR"), ("oklahoma city", "OK"), ("las vegas", "NV"),
   ("baltimore", "MD"), ("louisville", "KY"), ("milwaukee", "WI"),
   ("albuquerque", "NM"), ("tucson", "AZ"), ("fresno", "CA"), ("mesa", "AZ"),
   ("sacramento", "CA"), ("atlanta", "GA"), ("kansas city", "MO"),
   ("colorado springs", "CO"), ("omaha", "NE"), ("raleigh", "NC"), ("miami", "FL"),
   ("oakland", "CA"), ("minneapolis", "MN"), ("tulsa", "OK"), ("cleveland", "OH"),
   ("wichita", "KS"), ("arlington", "TX"), ("new orleans", "LA"),
   ("bakersfield", "CA"), ("tampa", "FL"), ("honolulu", "HI"), ("aurora", "CO"),
   ("anaheim", "CA"), ("santa ana", "CA"), ("st. louis", "MO"), ("riverside", "CA"),
   ("corpus christi", "TX"), ("lexington", "KY"), ("pittsburgh", "PA"),
   ("anchorage", "AK"), ("stockton", "CA"), ("cincinnati", "OH"),
   ("saint paul", "MN"), ("toledo", "OH"), ("greensboro", "NC"), ("newark", "NJ"),
   ("plano", "TX"), ("henderson", "NV"), ("lincoln", "NE"), ("buffalo", "NY"),
   ("jersey city", "NJ"), ("chula vista", "CA"), ("fort wayne", "IN"),
   ("orlando", "FL"), ("st. petersburg", "FL"), ("chandler", "AZ"),
   ("laredo", "TX"), ("norfolk", "VA"), ("durham", "NC"), ("madison", "WI"),
   ("lubbock", "TX"), ("irvine", "CA"), ("winston-salem", "NC"), ("glendale", "AZ"),
   ("garland", "TX"), ("hialeah", "FL"), ("reno", "NV"), ("chesapeake", "VA"),
   ("gilbert", "AZ"), ("baton rouge", "LA"), ("irving", "TX"), ("scottsdale", "AZ"),
   ("north las vegas", "NV"), ("fremont", "CA"), ("boise city", "ID"),
   ("richmond", "VA"), ("san bernardino", "CA"), ("birmingham", "AL"),
   ("spokane", "WA"), ("rochester", "NY")]

/-- `inferStateFromCity(city)` from `src/lib/utils.ts` (the caller handles the
falsy-city guard; unknown cities give `none`). -/
def inferStateFromCity (city : String) : Option String :=
  cityStateMapping.lookup (jsTrim (jsLower city))

/-- `ensureAbsoluteUrl(url)` from `src/lib/utils.ts` on strings. -/
def ensureAbsoluteUrl (url : String) : String :=
  if url == "" then url
  else if jsStartsWith url "http://" || jsStartsWith url "https://" then url
  else if jsStartsWith url "//" then "https:" ++ url
  else url

mutual
/-- JavaScript string coercion `String(v)`. -/
def jsToString : Val → String
  | vNull => "null"
  | vBool b => if b then "true" else "false"
  | vNum d => decToString d
  | vStr s => s
  | vArr l => jsToStringArr l
  | vObj _ => "[object Object]"
/-- `Array.prototype.toString`: elements joined by commas, null printing as
the empty string. -/
def jsToStringArr : ValList → String
  | ValList.nil => ""
  | ValList.cons v ValList.nil => if v = vNull then "" else jsToString v
  | ValList.cons v rest =>
      (if v = vNull then "" else jsToString v) ++ "," ++ jsToStringArr rest
end

/-- `parseFloat(v)` on an arbitrary value: coerce to string, then parse. -/
def jsParseFloatV (v : Val) : Option Dec :=
  jsParseFloat (jsToString v)

/-- `parseInt(v)` on an arbitrary value: coerce to string, then parse. -/
def jsParseIntV (v : Val) : Option ℤ :=
  jsParseInt (jsToString v)

/-- `v && typeof v === "object"`: a truthy object or array. -/
def isContainer : Val → Bool
  | vArr _ => true
  | vObj _ => true
  | _ => false

/-- The keep test of the generic pruning reduce: drop null and the empty
string, drop empty arrays, drop objects with no keys unless they carry a
truthy `@type` discriminator (which itself requires a key, so an empty
object is never a schema type), keep all other primitives. -/
def keepVal : Val → Bool
  | vNull => false
  | vStr s => s != ""
  | vArr l => !(l == ValList.nil)
  | vObj gs => !(gs == ValFields.fnil) || truthyO (getF gs "@type")
  | _ => true

/-- The business-entity type list of `cleanObject` (note: it contains
`Organization` and omits `HVACBusiness`). -/
def businessTypes : List String :=
  ["LocalBusiness", "Restaurant", "ProfessionalService", "LegalService",
   "MedicalBusiness", "HomeAndConstructionBusiness", "AutomotiveBusiness",
   "Organization"]

/-- `businessTypes.includes(obj["@type"])` with `===` semantics. -/
def businessMatch (tv : Val) : Option String :=
  match tv with
  | vStr t => if businessTypes.contains t then some t else none
  | _ => none

/-- The default answer object injected into Question nodes. -/
def answerVal : Val :=
  vObj (fcons "@type" (vStr "Answer")
    (fcons "text" (vStr "Contact us for more information.") fnil))

/-- Outcome of the type-specific block of `cleanObject`: a thrown TypeError,
a `return null`, or the (possibly mutated) fields to hand to the reduce. -/
inductive StepRes where
  | thrown : StepRes
  | nullified : StepRes
  | next : ValFields → StepRes
deriving DecidableEq

/-- OpeningHoursSpecification rules: reject when day or times are missing or
the times fail the `HH:MM` format (a truthy non-string time throws on
`.trim()`). -/
def ohsStep (fs : ValFields) : StepRes :=
  if !truthyO (getF fs "dayOfWeek") || !truthyO (getF fs "opens") ||
     !truthyO (getF fs "closes") then
    StepRes.nullified
  else
    match getF fs "opens" with
    | some (vStr so) =>
        if !isValidTimeFormat so then StepRes.nullified
        else
          match getF fs "closes" with
          | some (vStr sc) =>
              if !isValidTimeFormat sc then StepRes.nullified else StepRes.next fs
          | _ => StepRes.thrown
    | _ => StepRes.thrown

/-- GeoCoordinates rules: reject when latitude or longitude is falsy or when
a parsed value is out of range (NaN comparisons are all false, so
unparseable truthy coordinates pass). -/
def geoStep (fs : ValFields) : StepRes :=
  if !truthyO (getF fs "latitude") || !truthyO (getF fs "longitude") then
    StepRes.nullified
  else
    let lat := jsParseFloatV ((getF fs "latitude").getD vNull)
    let lng := jsParseFloatV ((getF fs "longitude").getD vNull)
    let bad :=
      (match lat with
       | some d => d.ltInt (-90) || d.gtInt 90
       | none => false) ||
      (match lng with
       | some d => d.ltInt (-180) || d.gtInt 180
       | none => false)
    if bad then StepRes.nullified else StepRes.next fs

/-- AggregateRating rules: reject when value or count is falsy or parses out
of bounds (NaN comparisons are all false); otherwise normalize value and
count to strings and pin the best and worst bounds. -/
def ratingStep (fs : ValFields) : StepRes :=
  if !truthyO (getF fs "ratingValue") || !truthyO (getF fs "reviewCount") then
    StepRes.nullified
  else
    let pr := jsParseFloatV ((getF fs "ratingValue").getD vNull)
    let pc := jsParseIntV ((getF fs "reviewCount").getD vNull)
    let bad :=
      (match pr with
       | some d => d.ltInt 1 || d.gtInt 5
       | none => false) ||
      (match pc with
       | some c => decide (c < 1)
       | none => false)
    if bad then StepRes.nullified
    else
      let fs1 := setF fs "ratingValue"
        (vStr (match pr with
          | some d => decToString d
          | none => "NaN"))
      let fs2 := setF fs1 "reviewCount"
        (vStr (match pc with
          | some c => intToStr c
          | none => "NaN"))
      let fs3 := setF fs2 "bestRating" (vStr "5")
      let fs4 := setF fs3 "worstRating" (vStr "1")
      StepRes.next fs4

/-- Trim a string field in place when truthy; a truthy non-string throws. -/
def trimStrField (fs : ValFields) (key : String) : Option ValFields :=
  match getF fs key with
  | some v =>
      if truthy v then
        match v with
        | vStr s => some (setF fs key (vStr (jsTrim s)))
        | _ => none
      else some fs
  | none => some fs

/-- PostalAddress rules: extract a postal code from the address text when
absent, drop an invalid one, reject when no component remains, fill the
intelligent defaults, trim the string components and default the country. -/
def postalStep (fs : ValFields) : StepRes :=
  let country := jsToString (orUS (getF fs "addressCountry"))
  let fs1 :=
    if !truthyO (getF fs "postalCode") &&
       (truthyO (getF fs "streetAddress") || truthyO (getF fs "addressLocality")) then
      let fullText := jsTrim (jsToString (orEmptyStr (getF fs "streetAddress")) ++ " " ++
        jsToString (orEmptyStr (getF fs "addressLocality")) ++ " " ++
        jsToString (orEmptyStr (getF fs "addressRegion")))
      match extractPostalCode fullText country with
      | some z => setF fs "postalCode" (vStr z)
      | none => fs
    else fs
  let fs2 :=
    match getF fs1 "postalCode" with
    | some v =>
        if truthy v && !isValidPostalCode (jsToString v) country then
          delF fs1 "postalCode"
        else fs1
    | none => fs1
  if !(truthyO (getF fs2 "streetAddress") || truthyO (getF fs2 "addressLocality") ||
       truthyO (getF fs2 "addressRegion") || truthyO (getF fs2 "postalCode")) then
    StepRes.nullified
  else
    let fs3 :=
      if !truthyO (getF fs2 "streetAddress") &&
         (truthyO (getF fs2 "addressLocality") || truthyO (getF fs2 "addressRegion")) then
        setF fs2 "streetAddress" (vStr "Address available upon request")
      else fs2
    let fs4 :=
      if !truthyO (getF fs3 "addressLocality") && truthyO (getF fs3 "addressRegion") then
        setF fs3 "addressLocality" (vStr "Local Area")
      else fs3
    match (if !truthyO (getF fs4 "addressRegion") && truthyO (getF fs4 "addressLocality") then
        match getF fs4 "addressLocality" with
        | some (vStr s) =>
            some (setF fs4 "addressRegion" (vStr ((inferStateFromCity s).getD "State")))
        | _ => none
      else some fs4) with
    | none => StepRes.thrown
    | some fs5 =>
        match trimStrField fs5 "streetAddress" with
        | none => StepRes.thrown
        | some fs6 =>
            match trimStrField fs6 "addressLocality" with
            | none => StepRes.thrown
            | some fs7 =>
                match trimStrField fs7 "addressRegion" with
                | none => StepRes.thrown
                | some fs8 =>
                    let fs9 := setF fs8 "addressCountry" (orUS (getF fs8 "addressCountry"))
                    match trimStrField fs9 "postalCode" with
                    | none => StepRes.thrown
                    | some fs10 => StepRes.next fs10

/-- ImageObject rules: reject without a URL, else absolutize it. -/
def imageStep (fs : ValFields) : StepRes :=
  if !truthyO (getF fs "url") then StepRes.nullified
  else
    match getF fs "url" with
    | some (vStr s) => StepRes.next (setF fs "url" (vStr (ensureAbsoluteUrl s)))
    | _ => StepRes.thrown

/-- A truthy field value coerced for an optional-string parameter. -/
def optStrOf (o : Option Val) : Option String :=
  match o with
  | some v => if truthy v then some (jsToString v) else none
  | none => none

/-- `sameAs.map(ensureAbsoluteUrl)`: falsy entries pass through, strings are
absolutized, truthy non-strings throw. -/
def mapSameAs : ValList → Option ValList
  | ValList.nil => some ValList.nil
  | ValList.cons e rest =>
      match (if truthy e then
          match e with
          | vStr s => some (vStr (ensureAbsoluteUrl s))
          | _ => none
        else some e) with
      | none => none
      | some x =>
          match mapSameAs rest with
          | none => none
          | some r => some (ValList.cons x r)

/-- `.filter(isValidUrl)` over the mapped social links. -/
def filterSameAs : ValList → ValList
  | ValList.nil => ValList.nil
  | ValList.cons e rest =>
      if isValidUrl (jsToString e) then ValList.cons e (filterSameAs rest)
      else filterSameAs rest

/-- Business-entity rules: reject without a name; format the phone; drop an
invalid email; auto-detect a missing price range from the nested address
city; absolutize the URL; absolutize and filter the social links. -/
def businessStep (t : String) (fs : ValFields) : StepRes :=
  if !truthyO (getF fs "name") then StepRes.nullified
  else
    match (match getF fs "telephone" with
      | some v =>
          if truthy v then
            match v with
            | vStr s => some (setF fs "telephone" (vStr (formatPhoneNumber s)))
            | _ => none
          else some fs
      | none => some fs) with
    | none => StepRes.thrown
    | some fs1 =>
        let fs2 :=
          match getF fs1 "email" with
          | some v =>
              if truthy v && !isValidEmail (jsToString v) then delF fs1 "email" else fs1
          | none => fs1
        let locality : Option Val :=
          match getF fs2 "address" with
          | some (vObj af) => getF af "addressLocality"
          | _ => none
        match (if !truthyO (getF fs2 "priceRange") && truthyO locality then
            match locality with
            | some (vStr city) =>
                some (setF fs2 "priceRange" (vStr (detectPriceRange city t
                  (optStrOf (getF fs2 "name")) (optStrOf (getF fs2 "description")))))
            | _ => none
          else some fs2) with
        | none => StepRes.thrown
        | some fs3 =>
            match (match getF fs3 "url" with
              | some v =>
                  if truthy v then
                    match v with
                    | vStr s => some (setF fs3 "url" (vStr (ensureAbsoluteUrl s)))
                    | _ => none
                  else some fs3
              | none => some fs3) with
            | none => StepRes.thrown
            | some fs4 =>
                match getF fs4 "sameAs" with
                | some (vArr l) =>
                    match mapSameAs l with
                    | none => StepRes.thrown
                    | some l2 => StepRes.next (setF fs4 "sameAs" (vArr (filterSameAs l2)))
                | _ => StepRes.next fs4

/-- WebPage rules: absolutize the URL when present. -/
def webPageStep (fs : ValFields) : StepRes :=
  match getF fs "url" with
  | some v =>
      if truthy v then
        match v with
        | vStr s => StepRes.next (setF fs "url" (vStr (ensureAbsoluteUrl s)))
        | _ => StepRes.thrown
      else StepRes.next fs
  | none => StepRes.next fs

/-- The whole type-specific block of `cleanObject`, gated on a truthy
`@type`.  The per-type branches compare `@type` with distinct literals, so
at most one fires; the Question default-answer injection runs first. -/
def specialStep (fs : ValFields) : StepRes :=
  match getF fs "@type" with
  | none => StepRes.next fs
  | some tv =>
      if !truthy tv then StepRes.next fs
      else
        let fs1 :=
          if valEqStr tv "Question" && !truthyO (getF fs "acceptedAnswer") &&
             truthyO (getF fs "name") then
            setF fs "acceptedAnswer" answerVal
          else fs
        if valEqStr tv "OpeningHoursSpecification" then ohsStep fs1
        else if valEqStr tv "GeoCoordinates" then geoStep fs1
        else if valEqStr tv "AggregateRating" then ratingStep fs1
        else if valEqStr tv "PostalAddress" then postalStep fs1
        else if valEqStr tv "ImageObject" then imageStep fs1
        else
          match businessMatch tv with
          | some t => businessStep t fs1
          | none =>
              if valEqStr tv "WebPage" then webPageStep fs1
              else StepRes.next fs1

mutual
/-- Total size of a value (nodes plus fields), the fuel measure. -/
def sizeVal : Val → Nat
  | vArr l => 1 + sizeList l
  | vObj fs => 1 + sizeFields fs
  | _ => 1
/-- Total size of array elements. -/
def sizeList : ValList → Nat
  | ValList.nil => 0
  | ValList.cons v t => 1 + sizeVal v + sizeList t
/-- Total size of object fields. -/
def sizeFields : ValFields → Nat
  | ValFields.fnil => 0
  | ValFields.fcons _ v t => 1 + sizeVal v + sizeFields t
end

mutual
/-- `cleanObject(obj)` with explicit fuel (the type-specific repairs can
inject small fresh values, so the recursion is bounded by fuel rather than
by the structure; `fuelFor` always suffices, see the idempotence proofs).
`none` models a thrown TypeError. -/
def cleanObjectF : Nat → Val → Option Val
  | 0, _ => none
  | _ + 1, vNull => some vNull
  | _ + 1, vBool b => some (vBool b)
  | _ + 1, vNum d => some (vNum d)
  | _ + 1, vStr s => some (vStr s)
  | fuel + 1, vArr l =>
      match cleanArrF fuel l with
      | some l2 => some (vArr l2)
      | none => none
  | fuel + 1, vObj fs =>
      match specialStep fs with
      | StepRes.thrown => none
      | StepRes.nullified => some vNull
      | StepRes.next fs2 =>
          match cleanFieldsF fuel fs2 with
          | some gs => some (vObj gs)
          | none => none
/-- The array branch: clean object elements, keep primitives, then filter
out null and the empty string. -/
def cleanArrF : Nat → ValList → Option ValList
  | 0, _ => none
  | _ + 1, ValList.nil => some ValList.nil
  | fuel + 1, ValList.cons v rest =>
      match (if isContainer v then cleanObjectF fuel v else some v) with
      | none => none
      | some v2 =>
          match cleanArrF fuel rest with
          | none => none
          | some rest2 =>
              if v2 = vNull ∨ v2 = vStr "" then some rest2
              else some (ValList.cons v2 rest2)
/-- The generic reduce: clean each value, keep it only when `keepVal`. -/
def cleanFieldsF : Nat → ValFields → Option ValFields
  | 0, _ => none
  | _ + 1, ValFields.fnil => some ValFields.fnil
  | fuel + 1, ValFields.fcons k v rest =>
      match (if isContainer v then cleanObjectF fuel v else some v) with
      | none => none
      | some v2 =>
          match cleanFieldsF fuel rest with
          | none => none
          | some rest2 =>
              if keepVal v2 then some (ValFields.fcons k v2 rest2) else some rest2
end

/-- Fuel bound: generous, since repairs add only constant-size values while
every object node contributes at least its own field count. -/
def fuelFor (v : Val) : Nat := 4 * sizeVal v + 16

/-- `cleanObject(obj)` from `src/lib/utils.ts`. -/
def cleanObject (v : Val) : Option Val := cleanObjectF (fuelFor v) v

mutual
/-- No `@type` key anywhere: documents on which the cleaner is pure pruning. -/
def noTypeV : Val → Bool
  | vArr l => noTypeL l
  | vObj fs => noTypeF fs
  | _ => true
/-- `noTypeV` over array elements. -/
def noTypeL : ValList → Bool
  | ValList.nil => true
  | ValList.cons v t => noTypeV v && noTypeL t
/-- `noTypeV` over object fields, also requiring no `@type` key. -/
def noTypeF : ValFields → Bool
  | ValFields.fnil => true
  | ValFields.fcons k v t => k != "@type" && noTypeV v && noTypeF t
end

mutual
/-- Already-pruned values: the pruning pass keeps every node of such a
value, so it is a fixed point of the type-free cleaner. -/
def isCleanV : Val → Bool
  | vArr l => isCleanL l
  | vObj fs => isCleanF fs
  | _ => true
/-- Array elements are never null or the empty string, and are clean. -/
def isCleanL : ValList → Bool
  | ValList.nil => true
  | ValList.cons v t => !(v == vNull) && !(v == vStr "") && isCleanV v && isCleanL t
/-- Field values all pass the keep test and are clean. -/
def isCleanF : ValFields → Bool
  | ValFields.fnil => true
  | ValFields.fcons _ v t => keepVal v && isCleanV v && isCleanF t
end


/-- C1, counterexample: the claim asserts that textual tier language wins over
the city table for every input, including an empty city argument; but with an
empty city `detectPriceRange` returns the default second tier immediately,
ignoring the explicit word luxury in the business name. -/
theorem c1_empty_city_counterexample :
    detectPriceRange "" "Restaurant" (some "Luxury Spa") none = "$$" ∧ "$$" ≠ "$$$$" := by
  constructor
  · decide
  · decide


/-- C1 (amended): for a nonempty city, `detectPriceRange` follows the priority
order textual tier language, then the city cost-of-living table, then the
category default table, then the second-tier fallback; the textual keywords
map luxury/premium/exclusive/high-end to the fourth tier, upscale (and
boutique, sophisticated) to the third, affordable/budget/discount/cheap to the
first, and value/reasonable/moderate to the second (checked in that order);
when the city argument is empty, the second tier is returned immediately and
textual signals are ignored. -/
theorem c1_detect_price_range_priority :
    (∀ bt n d, detectPriceRange "" bt n d = "$$")
  ∧ (∀ city bt n d, city ≠ "" → textualPriceIndicator n d ≠ "" →
      detectPriceRange city bt n d = textualPriceIndicator n d)
  ∧ (∀ n d,
      (strIncludes (jsLower ((n.getD "") ++ " " ++ (d.getD ""))) "luxury" = true ∨
       strIncludes (jsLower ((n.getD "") ++ " " ++ (d.getD ""))) "premium" = true ∨
       strIncludes (jsLower ((n.getD "") ++ " " ++ (d.getD ""))) "exclusive" = true ∨
       strIncludes (jsLower ((n.getD "") ++ " " ++ (d.getD ""))) "high-end" = true) →
      textualPriceIndicator n d = "$$$$")
  ∧ (∀ n d,
      (strIncludes (jsLower ((n.getD "") ++ " " ++ (d.getD ""))) "luxury" = false ∧
       strIncludes (jsLower ((n.getD "") ++ " " ++ (d.getD ""))) "premium" = false ∧
       strIncludes (jsLower ((n.getD "") ++ " " ++ (d.getD ""))) "exclusive" = false ∧
       strIncludes (jsLower ((n.getD "") ++ " " ++ (d.getD ""))) "high-end" = false) →
      strIncludes (jsLower ((n.getD "") ++ " " ++ (d.getD ""))) "upscale" = true →
      textualPriceIndicator n d = "$$$")
  ∧ (∀ n d,
      (strIncludes (jsLower ((n.getD "") ++ " " ++ (d.getD ""))) "luxury" = false ∧
       strIncludes (jsLower ((n.getD "") ++ " " ++ (d.getD ""))) "premium" = false ∧
       strIncludes (jsLower ((n.getD "") ++ " " ++ (d.getD ""))) "exclusive" = false ∧
       strIncludes (jsLower ((n.getD "") ++ " " ++ (d.getD ""))) "high-end" = false ∧
       strIncludes (jsLower ((n.getD "") ++ " " ++ (d.getD ""))) "upscale" = false ∧
       strIncludes (jsLower ((n.getD "") ++ " " ++ (d.getD ""))) "boutique" = false ∧
       strIncludes (jsLower ((n.getD "") ++ " " ++ (d.getD ""))) "sophisticated" = false) →
      (strIncludes (jsLower ((n.getD "") ++ " " ++ (d.getD ""))) "affordable" = true ∨
       strIncludes (jsLower ((n.getD "") ++ " " ++ (d.getD ""))) "budget" = true ∨
       strIncludes (jsLower ((n.getD "") ++ " " ++ (d.getD ""))) "discount" = true ∨
       strIncludes (jsLower ((n.getD "") ++ " " ++ (d.getD ""))) "cheap" = true) →
      textualPriceIndicator n d = "$")
  ∧ (∀ city bt n d, city ≠ "" → textualPriceIndicator n d = "" →
      cityPriceMapping.lookup (jsTrim (jsLower city)) = some "$$$$" →
      detectPriceRange city bt n d = "$$$$")
  ∧ (∀ city bt n d p q, city ≠ "" → textualPriceIndicator n d = "" →
      cityPriceMapping.lookup (jsTrim (jsLower city)) = some p →
      businessTypePriceMapping.lookup bt = some q →
      detectPriceRange city bt n d = p)
  ∧ (∀ city bt n d p, city ≠ "" → textualPriceIndicator n d = "" →
      cityPriceMapping.lookup (jsTrim (jsLower city)) = none →
      businessTypePriceMapping.lookup bt = some p →
      detectPriceRange city bt n d = p)
  ∧ (∀ city bt n d, city ≠ "" → textualPriceIndicator n d = "" →
      cityPriceMapping.lookup (jsTrim (jsLower city)) = none →
      businessTypePriceMapping.lookup bt = none →
      detectPriceRange city bt n d = "$$") := by
  refine ⟨?_, ?_, ?_, ?_, ?_, ?_, ?_, ?_, ?_⟩
  · intro bt n d
    simp [detectPriceRange]
  · intro city bt n d hc hind
    simp only [detectPriceRange, textualPriceIndicator] at *
    rw [if_neg (by simpa using hc)]
    simp only [bne_iff_ne, ne_eq]
    rw [if_pos hind]
  · intro n d h
    simp only [textualPriceIndicator]
    rcases h with h | h | h | h <;> simp [h]
  · intro n d hneg hpos
    obtain ⟨h1, h2, h3, h4⟩ := hneg
    simp only [textualPriceIndicator]
    simp [h1, h2, h3, h4, hpos]
  · intro n d hneg hpos
    obtain ⟨h1, h2, h3, h4, h5, h6, h7⟩ := hneg
    simp only [textualPriceIndicator]
    rcases hpos with h | h | h | h <;> simp [h1, h2, h3, h4, h5, h6, h7, h]
  · intro city bt n d hc hind hcity
    simp only [detectPriceRange]
    rw [if_neg (by simpa using hc)]
    simp [hind, hcity]
  · intro city bt n d p q hc hind hcity hbt
    simp only [detectPriceRange]
    rw [if_neg (by simpa using hc)]
    simp [hind, hcity, hbt]
  · intro city bt n d p hc hind hcity hbt
    simp only [detectPriceRange]
    rw [if_neg (by simpa using hc)]
    simp [hind, hcity, hbt]
  · intro city bt n d hc hind hcity hbt
    simp only [detectPriceRange]
    rw [if_neg (by simpa using hc)]
    simp [hind, hcity, hbt]


/-- C1 witness: the amended priority theorem applied at concrete inputs —
a New York business described as affordable classifies as first tier (textual
beats the city table), and a Detroit HVAC business with no price language
takes the city table value. -/
theorem c1_detect_price_range_priority_witness :
    detectPriceRange "new york" "Restaurant" none (some "affordable eats") = "$" ∧
    detectPriceRange "detroit" "HVACBusiness" (some "Acme HVAC") (some "heating repair") = "$" := by
  constructor
  · have h := c1_detect_price_range_priority.2.1 "new york" "Restaurant" none
      (some "affordable eats") (by decide) (by decide)
    rw [h]
    decide
  · have h := c1_detect_price_range_priority.2.2.2.2.2.2.1 "detroit" "HVACBusiness"
      (some "Acme HVAC") (some "heating repair") "$" "$$" (by decide) (by decide)
      (by decide) (by decide)
    exact h


/-- If a one-character list is a prefix of `l`, `l` starts with that character. -/
theorem isPrefixOf_one {l : List Char} {c : Char}
    (h : List.isPrefixOf [c] l = true) : ∃ t, l = c :: t := by
  cases l with
  | nil => simp [List.isPrefixOf] at h
  | cons a t =>
      have : c = a := by simpa [List.isPrefixOf] using h
      exact ⟨t, by rw [this]⟩


/-- If a two-character list is a prefix of `l`, `l` starts with those characters. -/
theorem isPrefixOf_two {l : List Char} {c d : Char}
    (h : List.isPrefixOf [c, d] l = true) : ∃ t, l = c :: d :: t := by
  cases l with
  | nil => simp [List.isPrefixOf] at h
  | cons a t =>
      cases t with
      | nil => simp [List.isPrefixOf] at h
      | cons b t2 =>
          have h2 : c = a ∧ d = b := by simpa [List.isPrefixOf] using h
          exact ⟨t2, by rw [h2.1, h2.2]⟩


/-- C6, counterexample: a 10-digit UK-shaped number (leading 0) is captured by
the `length === 10` United States branch, which runs first, so it is formatted
with a `+1-` prefix rather than the `+44-` grouping the claim promises for
recognizable 10 to 11 digit UK-shaped numbers. -/
theorem c6_uk_ten_digit_counterexample :
    formatPhoneNumber "0123456789" = "+1-012-345-6789" ∧
    strIncludes "+1-012-345-6789" "+44" = false := by
  constructor
  · decide
  · decide


/-- C6 (amended): after stripping non-digits, exactly 10 digits always format
as `+1-XXX-XXX-XXXX` (even UK-shaped ones starting with 0); 11 digits starting
with 1 format the same way; only 11-digit sequences starting with 44 or 0
receive the `+44-` grouping; any other digit count of at least 7 returns the
input trimmed; fewer than 7 digits returns the input unchanged. -/
theorem c6_format_phone_cases :
    (∀ s, (jsDigits s).data.length = 10 →
      formatPhoneNumber s = "+1-" ++ jsSlice (jsDigits s) 0 3 ++ "-" ++
        jsSlice (jsDigits s) 3 6 ++ "-" ++ jsSliceFrom (jsDigits s) 6)
  ∧ (∀ s, (jsDigits s).data.length = 11 → jsStartsWith (jsDigits s) "1" = true →
      formatPhoneNumber s = "+1-" ++ jsSlice (jsDigits s) 1 4 ++ "-" ++
        jsSlice (jsDigits s) 4 7 ++ "-" ++ jsSliceFrom (jsDigits s) 7)
  ∧ (∀ s, (jsDigits s).data.length = 11 → jsStartsWith (jsDigits s) "44" = true →
      formatPhoneNumber s = "+44-" ++ jsSlice (jsDigits s) 2 5 ++ "-" ++
        jsSlice (jsDigits s) 5 8 ++ "-" ++ jsSliceFrom (jsDigits s) 8)
  ∧ (∀ s, (jsDigits s).data.length = 11 → jsStartsWith (jsDigits s) "0" = true →
      formatPhoneNumber s = "+44-" ++ jsSlice (jsDigits s) 1 4 ++ "-" ++
        jsSlice (jsDigits s) 4 7 ++ "-" ++ jsSliceFrom (jsDigits s) 7)
  ∧ (∀ s, 7 ≤ (jsDigits s).data.length → (jsDigits s).data.length ≠ 10 →
      (jsDigits s).data.length ≠ 11 → formatPhoneNumber s = jsTrim s)
  ∧ (∀ s, (jsDigits s).data.length = 11 → jsStartsWith (jsDigits s) "1" = false →
      jsStartsWith (jsDigits s) "44" = false → jsStartsWith (jsDigits s) "0" = false →
      formatPhoneNumber s = jsTrim s)
  ∧ (∀ s, (jsDigits s).data.length < 7 → formatPhoneNumber s = s) := by
  have hne : ∀ s : String, (jsDigits s).data.length ≠ 0 → (s == "") = false := by
    intro s h
    rcases eq_or_ne s "" with rfl | hn
    · exact absurd rfl h
    · simpa using hn
  refine ⟨?_, ?_, ?_, ?_, ?_, ?_, ?_⟩
  · intro s h
    simp only [formatPhoneNumber]
    rw [hne s (by omega)]
    simp [h, jsSlice]
  · intro s h h1
    obtain ⟨t, ht⟩ := isPrefixOf_one (l := (jsDigits s).data) (by simpa [jsStartsWith] using h1)
    simp only [formatPhoneNumber]
    rw [hne s (by omega)]
    simp only [h, h1, jsSlice, jsSliceFrom]
    simp [ht, String.ext_iff]
  · intro s h h44
    obtain ⟨t, ht⟩ := isPrefixOf_two (l := (jsDigits s).data) (by simpa [jsStartsWith] using h44)
    have h1 : jsStartsWith (jsDigits s) "1" = false := by
      simp [jsStartsWith, ht, List.isPrefixOf]
    simp only [formatPhoneNumber]
    rw [hne s (by omega)]
    simp only [h, h1, h44, jsSlice, jsSliceFrom]
    simp [ht, String.ext_iff]
  · intro s h h0
    obtain ⟨t, ht⟩ := isPrefixOf_one (l := (jsDigits s).data) (by simpa [jsStartsWith] using h0)
    have h1 : jsStartsWith (jsDigits s) "1" = false := by
      simp [jsStartsWith, ht, List.isPrefixOf]
    have h44 : jsStartsWith (jsDigits s) "44" = false := by
      simp [jsStartsWith, ht, List.isPrefixOf]
    simp only [formatPhoneNumber]
    rw [hne s (by omega)]
    simp only [h, h1, h44, h0, jsSlice, jsSliceFrom]
    simp [ht, String.ext_iff]
  · intro s h h10 h11
    simp only [formatPhoneNumber]
    rw [hne s (by omega)]
    have hno : ¬(10 ≤ (jsDigits s).length ∧ (jsDigits s).length ≤ 11) := by
      show ¬(10 ≤ (jsDigits s).data.length ∧ (jsDigits s).data.length ≤ 11)
      omega
    have h10l : ¬((jsDigits s).length = 10) := h10
    have h11l : ¬((jsDigits s).length = 11) := h11
    have hl : 7 ≤ (jsDigits s).length := h
    simp [h10l, h11l, hno, hl]
  · intro s h h1 h44 h0
    simp only [formatPhoneNumber]
    rw [hne s (by omega)]
    simp [h, h1, h44, h0]
  · intro s h
    rcases eq_or_ne s "" with rfl | hn
    · simp [formatPhoneNumber]
    · simp only [formatPhoneNumber]
      rw [show (s == "") = false from by simpa using hn]
      have h10 : ¬((jsDigits s).length = 10) := by
        show (jsDigits s).data.length ≠ 10
        omega
      have h11 : ¬((jsDigits s).length = 11) := by
        show (jsDigits s).data.length ≠ 11
        omega
      have hno : ¬(10 ≤ (jsDigits s).length ∧ (jsDigits s).length ≤ 11) := by
        show ¬(10 ≤ (jsDigits s).data.length ∧ (jsDigits s).data.length ≤ 11)
        omega
      have h7 : ¬ 7 ≤ (jsDigits s).length := by
        show ¬ 7 ≤ (jsDigits s).data.length
        omega
      simp [h10, h11, hno, h7]


/-- C6 witness: the amended case split applied at concrete phone numbers. -/
theorem c6_format_phone_cases_witness :
    formatPhoneNumber "(555) 123-4567" = "+1-555-123-4567" ∧
    formatPhoneNumber "01234 567890" = "+44-123-456-7890" := by
  constructor
  · have h := c6_format_phone_cases.1 "(555) 123-4567" (by decide)
    rw [h]; decide
  · have h := c6_format_phone_cases.2.2.2.1 "01234 567890" (by decide) (by decide)
    rw [h]; decide


/-- Consuming `l.length` digits from `l ++ r` yields exactly `l` and `r` when
`l` is all digits. -/
theorem digitsN_append {l r : List Char} (h : ∀ c ∈ l, c.isDigit = true) :
    digitsN l.length (l ++ r) = some (l, r) := by
  induction l with
  | nil => simp [digitsN]
  | cons c t ih =>
      simp only [List.length_cons, List.cons_append, digitsN]
      simp [h c (by simp), List.append_eq,
        ih (fun x hx => h x (List.mem_cons_of_mem _ hx))]


/-- If the scan succeeds on a suffix (with the correct preceding character),
it succeeds on the whole input. -/
theorem scanMatch_extend (tryAt : List Char → Option (List Char)) :
    ∀ (pre : List Char) (prev : Option Char) (cs : List Char),
      (scanMatch tryAt (lastOpt prev pre) cs).isSome = true →
      (scanMatch tryAt prev (pre ++ cs)).isSome = true := by
  intro pre
  induction pre with
  | nil => intro prev cs h; simpa [lastOpt] using h
  | cons c t ih =>
      intro prev cs h
      have h2 := ih (some c) cs (by simpa [lastOpt] using h)
      cases cs with
      | nil =>
          simp only [List.cons_append, scanMatch]
          cases htry : (if boundaryOK prev then tryAt (c :: (t ++ [])) else none) with
          | some m => simp
          | none => simpa using h2
      | cons d u =>
          simp only [List.cons_append, scanMatch]
          cases htry : (if boundaryOK prev then tryAt (c :: (t ++ d :: u)) else none) with
          | some m => simp
          | none => simpa using h2


/-- The US matcher succeeds on five digits followed by a boundary. -/
theorem tryUSAt_isSome {code suf : List Char} (hlen : code.length = 5)
    (hdig : ∀ c ∈ code, c.isDigit = true)
    (hsuf : ∀ c, suf.head? = some c → isWordChar c = false) :
    (tryUSAt (code ++ suf)).isSome = true := by
  have h5 : digitsN 5 (code ++ suf) = some (code, suf) := by
    rw [← hlen]; exact digitsN_append hdig
  simp only [tryUSAt, h5]
  cases suf with
  | nil => simp [boundaryAfter]
  | cons c u =>
      have hb : boundaryAfter (c :: u) = true := by
        simp [boundaryAfter, hsuf c rfl]
      by_cases hc : c = '-'
      · subst hc
        cases h4 : digitsN 4 u with
        | none => simp [h4, hb]
        | some p =>
            obtain ⟨d4, r3⟩ := p
            cases hba : boundaryAfter r3 with
            | false => simp [h4, hba, hb]
            | true => simp [h4, hba]
      · have hstep : (match c :: u with
            | '-' :: rest2 =>
                (match digitsN 4 rest2 with
                 | some (d4, rest3) =>
                     if boundaryAfter rest3 then some (code ++ '-' :: d4)
                     else if boundaryAfter (c :: u) then some code else none
                 | none => if boundaryAfter (c :: u) then some code else none)
            | _ => if boundaryAfter (c :: u) then some code else none) =
            if boundaryAfter (c :: u) then some code else none := by
          split
          · rename_i heq
            injection heq with h1 h2
            exact absurd h1 hc
          · rfl
        rw [hstep, hb]
        simp


/-- A whitespace character is not a decimal digit. -/
theorem ws_digit {c : Char} (hw : isWs c = true) (hd : c.isDigit = true) : False := by
  simp only [isWs, Bool.or_eq_true, beq_iff_eq] at hw
  rcases hw with ((((rfl | rfl) | rfl) | rfl) | h) | h
  · exact absurd hd (by decide)
  · exact absurd hd (by decide)
  · exact absurd hd (by decide)
  · exact absurd hd (by decide)
  · simp only [Char.isDigit, decide_eq_true_eq, Bool.and_eq_true] at hd
    obtain ⟨h1, h2⟩ := hd
    have h1n : (Char.val (Char.ofNat 48)).toNat ≤ c.val.toNat := h1
    have he : (Char.val (Char.ofNat 48)).toNat = 48 := rfl
    simp only [Char.toNat] at h
    omega
  · simp only [Char.isDigit, decide_eq_true_eq, Bool.and_eq_true] at hd
    obtain ⟨h1, h2⟩ := hd
    have h1n : (Char.val (Char.ofNat 48)).toNat ≤ c.val.toNat := h1
    have he : (Char.val (Char.ofNat 48)).toNat = 48 := rfl
    simp only [Char.toNat] at h
    omega

/-- A whitespace character is not a letter. -/
theorem ws_alpha {c : Char} (hw : isWs c = true) (hd : c.isAlpha = true) : False := by
  simp only [isWs, Bool.or_eq_true, beq_iff_eq] at hw
  rcases hw with ((((rfl | rfl) | rfl) | rfl) | h) | h
  · exact absurd hd (by decide)
  · exact absurd hd (by decide)
  · exact absurd hd (by decide)
  · exact absurd hd (by decide)
  · simp only [Char.isAlpha, Char.isUpper, Char.isLower, decide_eq_true_eq,
      Bool.or_eq_true, Bool.and_eq_true] at hd
    simp only [Char.toNat] at h
    rcases hd with ⟨h1, h2⟩ | ⟨h1, h2⟩
    · have h1n : (Char.val (Char.ofNat 65)).toNat ≤ c.val.toNat := h1
      have he : (Char.val (Char.ofNat 65)).toNat = 65 := rfl
      omega
    · have h1n : (Char.val (Char.ofNat 97)).toNat ≤ c.val.toNat := h1
      have he : (Char.val (Char.ofNat 97)).toNat = 97 := rfl
      omega
  · simp only [Char.isAlpha, Char.isUpper, Char.isLower, decide_eq_true_eq,
      Bool.or_eq_true, Bool.and_eq_true] at hd
    simp only [Char.toNat] at h
    rcases hd with ⟨h1, h2⟩ | ⟨h1, h2⟩
    · have h1n : (Char.val (Char.ofNat 65)).toNat ≤ c.val.toNat := h1
      have he : (Char.val (Char.ofNat 65)).toNat = 65 := rfl
      omega
    · have h1n : (Char.val (Char.ofNat 97)).toNat ≤ c.val.toNat := h1
      have he : (Char.val (Char.ofNat 97)).toNat = 97 := rfl
      omega

/-- Bool form of `ws_digit`. -/
theorem isWs_eq_false_of_isDigit {c : Char} (hd : c.isDigit = true) : isWs c = false := by
  cases hw : isWs c
  · rfl
  · exact (ws_digit hw hd).elim

/-- Bool form of `ws_alpha`. -/
theorem isWs_eq_false_of_isAlpha {c : Char} (hd : c.isAlpha = true) : isWs c = false := by
  cases hw : isWs c
  · rfl
  · exact (ws_alpha hw hd).elim

/-- `lastOpt` is the last character walked, or the seed. -/
theorem lastOpt_eq : ∀ (pre : List Char) (prev : Option Char),
    lastOpt prev pre = match pre.getLast? with
      | some c => some c
      | none => prev := by
  intro pre
  induction pre with
  | nil => intro prev; simp [lastOpt]
  | cons c t ih =>
      intro prev
      cases t with
      | nil => simp [lastOpt, ih]
      | cons d u => simpa [lastOpt, List.getLast?_cons_cons] using ih (some c)

/-- Head-character form of the after-boundary test. -/
theorem boundaryAfter_of_head {suf : List Char}
    (h : ∀ c, suf.head? = some c → isWordChar c = false) : boundaryAfter suf = true := by
  cases suf with
  | nil => rfl
  | cons c u => simp [boundaryAfter, h c rfl]

/-- Converse of `boundaryAfter_of_head`. -/
theorem head_of_boundaryAfter {suf : List Char} (h : boundaryAfter suf = true) :
    ∀ c, suf.head? = some c → isWordChar c = false := by
  intro c hc
  cases suf with
  | nil => simp at hc
  | cons d u =>
      obtain rfl : d = c := by simpa using hc
      simpa [boundaryAfter] using h

/-- Dropping blanks from a blank run followed by a non-blank-headed list. -/
theorem dropWhile_ws_append : ∀ (sp l : List Char), (∀ c ∈ sp, isWs c = true) →
    (∀ c, l.head? = some c → isWs c = false) →
    (sp ++ l).dropWhile isWs = l
  | [], l, _, hl => by
      cases l with
      | nil => rfl
      | cons c t => simp [List.dropWhile_cons, hl c rfl]
  | c :: sp, l, hsp, hl => by
      simp only [List.cons_append, List.dropWhile_cons, hsp c (by simp), if_true]
      exact dropWhile_ws_append sp l (fun x hx => hsp x (by simp [hx])) hl

/-- What a successful `digitsN` run tells about its input. -/
theorem digitsN_sound : ∀ (n : Nat) (cs d r : List Char), digitsN n cs = some (d, r) →
    cs = d ++ r ∧ d.length = n ∧ (∀ c ∈ d, c.isDigit = true)
  | 0, cs, d, r, h => by
      simp only [digitsN, Option.some.injEq, Prod.mk.injEq] at h
      obtain ⟨h1, h2⟩ := h
      subst h1
      subst h2
      exact ⟨rfl, rfl, by simp⟩
  | n + 1, [], d, r, h => by simp [digitsN] at h
  | n + 1, c :: cs, d, r, h => by
      simp only [digitsN] at h
      by_cases hc : c.isDigit = true
      · rw [if_pos hc] at h
        cases hrec : digitsN n cs with
        | none => rw [hrec] at h; simp at h
        | some p =>
            obtain ⟨d2, r2⟩ := p
            rw [hrec] at h
            simp only [Option.some.injEq, Prod.mk.injEq] at h
            obtain ⟨h1, h2⟩ := h
            subst h1
            subst h2
            obtain ⟨hcs, hlen, hdig⟩ := digitsN_sound n cs d2 r2 hrec
            refine ⟨by simp [hcs], by simp [hlen], ?_⟩
            intro x hx
            rcases List.mem_cons.mp hx with rfl | hx2
            · exact hc
            · exact hdig x hx2
      · rw [if_neg hc] at h; simp at h

/-- No region accepts the empty string as a full code. -/
theorem regionCodeSpec_nil (country : String) : regionCodeSpec country [] = false := by
  simp only [regionCodeSpec]
  split_ifs <;> rfl

/-- What a successful scan tells about its input: a split at a `\b` boundary
with the pattern matching at the split point. -/
theorem scanMatch_sound (tryAt : List Char → Option (List Char)) :
    ∀ (cs : List Char) (prev : Option Char) (m : List Char),
      scanMatch tryAt prev cs = some m →
      ∃ pre rest, cs = pre ++ rest ∧ boundaryOK (lastOpt prev pre) = true ∧
        tryAt rest = some m
  | [], prev, m, h => by
      simp only [scanMatch] at h
      by_cases hb : boundaryOK prev = true
      · rw [if_pos hb] at h
        exact ⟨[], [], rfl, by simpa [lastOpt], h⟩
      · rw [if_neg hb] at h; simp at h
  | c :: t, prev, m, h => by
      simp only [scanMatch] at h
      cases htry : (if boundaryOK prev then tryAt (c :: t) else none) with
      | some m2 =>
          rw [htry] at h
          obtain rfl := Option.some_injective _ h
          by_cases hb : boundaryOK prev = true
          · rw [if_pos hb] at htry
            exact ⟨[], c :: t, rfl, by simpa [lastOpt], htry⟩
          · rw [if_neg hb] at htry; simp at htry
      | none =>
          rw [htry] at h
          obtain ⟨pre, rest, hsplit, hbok, htr⟩ := scanMatch_sound tryAt t (some c) m h
          exact ⟨c :: pre, rest, by rw [List.cons_append, hsplit],
            by simpa [lastOpt] using hbok, htr⟩

/-- The scan succeeds whenever the pattern matches after a boundary-respecting
prefix. -/
theorem scanMatch_found (tryAt : List Char → Option (List Char))
    (pre rest : List Char) (hpre : ∀ c, pre.getLast? = some c → isWordChar c = false)
    (h : (tryAt rest).isSome = true) :
    (scanMatch tryAt none (pre ++ rest)).isSome = true := by
  apply scanMatch_extend
  have hbok : boundaryOK (lastOpt none pre) = true := by
    rw [lastOpt_eq]
    cases hl : pre.getLast? with
    | none => simp [boundaryOK]
    | some c => simp [boundaryOK, hpre c hl]
  cases rest with
  | nil => simpa [scanMatch, hbok] using h
  | cons c u =>
      simp only [scanMatch, hbok, if_true]
      cases hm : tryAt (c :: u) with
      | some m => simp
      | none => rw [hm] at h; simp at h

/-- What a successful US match returns: a full US code, the rest of the
input, and an after-boundary. -/
theorem tryUSAt_sound {cs m : List Char} (h : tryUSAt cs = some m) :
    ∃ suf, cs = m ++ suf ∧ usCodeSpec m = true ∧ boundaryAfter suf = true := by
  cases h5 : digitsN 5 cs with
  | none => simp [tryUSAt, h5] at h
  | some p =>
      obtain ⟨d5, rest⟩ := p
      simp only [tryUSAt, h5] at h
      obtain ⟨hcs, hlen5, hdig5⟩ := digitsN_sound 5 cs d5 rest h5
      have husd5 : usCodeSpec d5 = true := by
        have hh := digitsN_append (l := d5) (r := []) hdig5
        rw [hlen5, List.append_nil] at hh
        simp [usCodeSpec, hh]
      split at h
      · rename_i rest2
        cases h4 : digitsN 4 rest2 with
        | some q =>
            obtain ⟨d4, rest3⟩ := q
            simp only [h4] at h
            obtain ⟨hr2, hlen4, hdig4⟩ := digitsN_sound 4 rest2 d4 rest3 h4
            by_cases hb3 : boundaryAfter rest3 = true
            · rw [if_pos hb3] at h
              obtain rfl := Option.some_injective _ h
              refine ⟨rest3, ?_, ?_, hb3⟩
              · rw [hcs, hr2]
                simp
              · have h5m := digitsN_append (l := d5) (r := ('-' :: d4)) hdig5
                rw [hlen5] at h5m
                have h4m := digitsN_append (l := d4) (r := ([] : List Char)) hdig4
                rw [hlen4, List.append_nil] at h4m
                simp [usCodeSpec, h5m, h4m]
            · rw [if_neg hb3] at h
              by_cases hbr : boundaryAfter ('-' :: rest2) = true
              · rw [if_pos hbr] at h
                obtain rfl := Option.some_injective _ h
                exact ⟨'-' :: rest2, hcs, husd5, hbr⟩
              · rw [if_neg hbr] at h; simp at h
        | none =>
            simp only [h4] at h
            by_cases hbr : boundaryAfter ('-' :: rest2) = true
            · rw [if_pos hbr] at h
              obtain rfl := Option.some_injective _ h
              exact ⟨'-' :: rest2, hcs, husd5, hbr⟩
            · rw [if_neg hbr] at h; simp at h
      · by_cases hbr : boundaryAfter rest = true
        · rw [if_pos hbr] at h
          obtain rfl := Option.some_injective _ h
          exact ⟨rest, hcs, husd5, hbr⟩
        · rw [if_neg hbr] at h; simp at h

/-- The US matcher accepts every full US code followed by a boundary. -/
theorem tryUSAt_complete {code suf : List Char} (hc : usCodeSpec code = true)
    (hb : boundaryAfter suf = true) : (tryUSAt (code ++ suf)).isSome = true := by
  cases h5 : digitsN 5 code with
  | none => simp [usCodeSpec, h5] at hc
  | some p =>
      obtain ⟨d5, rest⟩ := p
      simp only [usCodeSpec, h5] at hc
      obtain ⟨hcode, hlen5, hdig5⟩ := digitsN_sound 5 code d5 rest h5
      simp only [Bool.or_eq_true, beq_iff_eq] at hc
      rcases hc with rfl | hc
      · rw [hcode, List.append_nil]
        have h5m := digitsN_append (l := d5) (r := suf) hdig5
        rw [hlen5] at h5m
        simp only [tryUSAt, h5m]
        cases suf with
        | nil => simp [boundaryAfter]
        | cons c u =>
            by_cases hdash : c = '-'
            · subst hdash
              cases h4 : digitsN 4 u with
              | none => simp [h4, hb]
              | some q =>
                  obtain ⟨d4, r3⟩ := q
                  cases hb3 : boundaryAfter r3 with
                  | true => simp [h4, hb3]
                  | false => simp [h4, hb3, hb]
            · split
              · rename_i rest2 heqq
                injection heqq with h1 h2
                exact absurd h1 hdash
              · rw [if_pos hb]
                simp
      · split at hc
        · rename_i r2
          cases h4 : digitsN 4 r2 with
          | none => simp only [h4] at hc; simp at hc
          | some q =>
              obtain ⟨d4, r3⟩ := q
              simp only [h4] at hc
              simp only [beq_iff_eq] at hc
              subst hc
              obtain ⟨hr2, hlen4, hdig4⟩ := digitsN_sound 4 r2 d4 [] h4
              rw [List.append_nil] at hr2
              subst hr2
              rw [hcode]
              have h5m := digitsN_append (l := d5) (r := '-' :: (r2 ++ suf)) hdig5
              rw [hlen5] at h5m
              have h4m := digitsN_append (l := r2) (r := suf) hdig4
              rw [hlen4] at h4m
              simp only [tryUSAt, List.append_assoc, List.cons_append, h5m, h4m, hb]
              simp
        · simp at hc

/-- What a successful digits-only match returns. -/
theorem tryDigitsOnlyAt_sound {n : Nat} {cs m : List Char}
    (h : tryDigitsOnlyAt n cs = some m) :
    ∃ suf, cs = m ++ suf ∧ digitsOnlyCodeSpec n m = true ∧ boundaryAfter suf = true := by
  cases hn : digitsN n cs with
  | none => simp [tryDigitsOnlyAt, hn] at h
  | some p =>
      obtain ⟨d, r⟩ := p
      simp only [tryDigitsOnlyAt, hn] at h
      by_cases hbr : boundaryAfter r = true
      · rw [if_pos hbr] at h
        obtain rfl := Option.some_injective _ h
        obtain ⟨hcs, hlen, hdig⟩ := digitsN_sound n cs d r hn
        refine ⟨r, hcs, ?_, hbr⟩
        have hh := digitsN_append (l := d) (r := []) hdig
        rw [hlen, List.append_nil] at hh
        simp [digitsOnlyCodeSpec, hh]
      · rw [if_neg hbr] at h; simp at h

/-- The digits-only matcher accepts every full code followed by a boundary. -/
theorem tryDigitsOnlyAt_complete {n : Nat} {code suf : List Char}
    (hc : digitsOnlyCodeSpec n code = true) (hb : boundaryAfter suf = true) :
    (tryDigitsOnlyAt n (code ++ suf)).isSome = true := by
  cases hn : digitsN n code with
  | none => simp [digitsOnlyCodeSpec, hn] at hc
  | some p =>
      obtain ⟨d, r⟩ := p
      simp only [digitsOnlyCodeSpec, hn, beq_iff_eq] at hc
      subst hc
      obtain ⟨hcode, hlen, hdig⟩ := digitsN_sound n code d [] hn
      rw [List.append_nil] at hcode
      have hh := digitsN_append (l := d) (r := suf) hdig
      rw [hlen] at hh
      rw [hcode]
      simp [tryDigitsOnlyAt, hh, hb]

/-- What a successful CA match returns. -/
theorem tryCAAt_sound {cs m : List Char} (h : tryCAAt cs = some m) :
    ∃ suf, cs = m ++ suf ∧ caCodeSpec m = true ∧ boundaryAfter suf = true := by
  simp only [tryCAAt] at h
  split at h
  · rename_i a b c rest
    by_cases habc : (a.isAlpha && b.isDigit && c.isAlpha) = true
    · rw [if_pos habc] at h
      split at h
      · rename_i d e f r3 heq
        by_cases hdef : (d.isDigit && e.isAlpha && f.isDigit && boundaryAfter r3) = true
        · rw [if_pos hdef] at h
          obtain rfl := Option.some_injective _ h
          simp only [Bool.and_eq_true] at habc hdef
          have hrest : rest = rest.takeWhile isWs ++ (d :: e :: f :: r3) := by
            conv_lhs => rw [← List.takeWhile_append_dropWhile (p := isWs) (l := rest)]
            rw [heq]
          refine ⟨r3, ?_, ?_, hdef.2⟩
          · conv_lhs => rw [hrest]
            simp
          · simp only [caCodeSpec]
            have hdw : (rest.takeWhile isWs ++ [d, e, f]).dropWhile isWs = [d, e, f] :=
              dropWhile_ws_append _ _ (fun x hx => List.mem_takeWhile_imp hx)
                (by intro x hx
                    obtain rfl : d = x := by simpa using hx
                    exact isWs_eq_false_of_isDigit hdef.1.1.1)
            rw [hdw]
            simp [habc.1.1, habc.1.2, habc.2, hdef.1.1.1, hdef.1.1.2, hdef.1.2]
        · rw [if_neg hdef] at h; simp at h
      · simp at h
    · rw [if_neg habc] at h; simp at h
  · simp at h

/-- The CA matcher accepts every full CA code followed by a boundary. -/
theorem tryCAAt_complete {code suf : List Char} (hc : caCodeSpec code = true)
    (hb : boundaryAfter suf = true) : (tryCAAt (code ++ suf)).isSome = true := by
  simp only [caCodeSpec] at hc
  split at hc
  · rename_i a b c rest
    simp only [Bool.and_eq_true] at hc
    obtain ⟨⟨⟨ha, hbd⟩, hca⟩, hm⟩ := hc
    split at hm
    · rename_i d e f heq
      simp only [Bool.and_eq_true] at hm
      obtain ⟨⟨hd, he⟩, hf⟩ := hm
      have hrest : rest = rest.takeWhile isWs ++ [d, e, f] := by
        conv_lhs => rw [← List.takeWhile_append_dropWhile (p := isWs) (l := rest)]
        rw [heq]
      have hdw : (rest.takeWhile isWs ++ (d :: e :: f :: suf)).dropWhile isWs =
          d :: e :: f :: suf :=
        dropWhile_ws_append _ _ (fun x hx => List.mem_takeWhile_imp hx)
          (by intro x hx
              obtain rfl : d = x := by simpa using hx
              exact isWs_eq_false_of_isDigit hd)
      rw [hrest]
      simp [tryCAAt, ha, hbd, hca, hdw, hd, he, hf, hb]
    · simp at hm
  · simp at hc

/-- What a successful UK tail match returns. -/
theorem ukTail_sound {rest t : List Char} (h : ukTail rest = some t) :
    ∃ r3, rest = t ++ r3 ∧ ukTailSpec t = true ∧ boundaryAfter r3 = true := by
  simp only [ukTail] at h
  split at h
  · rename_i d a b r3 heq
    by_cases hdab : (d.isDigit && a.isAlpha && b.isAlpha && boundaryAfter r3) = true
    · rw [if_pos hdab] at h
      obtain rfl := Option.some_injective _ h
      simp only [Bool.and_eq_true] at hdab
      have hrest : rest = rest.takeWhile isWs ++ (d :: a :: b :: r3) := by
        conv_lhs => rw [← List.takeWhile_append_dropWhile (p := isWs) (l := rest)]
        rw [heq]
      refine ⟨r3, ?_, ?_, hdab.2⟩
      · conv_lhs => rw [hrest]
        simp
      simp only [ukTailSpec]
      have hdw : (rest.takeWhile isWs ++ [d, a, b]).dropWhile isWs = [d, a, b] :=
        dropWhile_ws_append _ _ (fun x hx => List.mem_takeWhile_imp hx)
          (by intro x hx
              obtain rfl : d = x := by simpa using hx
              exact isWs_eq_false_of_isDigit hdab.1.1.1)
      rw [hdw]
      simp [hdab.1.1.1, hdab.1.1.2, hdab.1.2]
    · rw [if_neg hdab] at h; simp at h
  · simp at h

/-- The UK tail matcher accepts every full tail followed by a boundary. -/
theorem ukTail_complete {t suf : List Char} (hc : ukTailSpec t = true)
    (hb : boundaryAfter suf = true) : (ukTail (t ++ suf)).isSome = true := by
  simp only [ukTailSpec] at hc
  split at hc
  · rename_i d a b heq
    simp only [Bool.and_eq_true] at hc
    obtain ⟨⟨hd, ha⟩, hbb⟩ := hc
    have ht : t = t.takeWhile isWs ++ [d, a, b] := by
      conv_lhs => rw [← List.takeWhile_append_dropWhile (p := isWs) (l := t)]
      rw [heq]
    have hdw : (t.takeWhile isWs ++ (d :: a :: b :: suf)).dropWhile isWs =
        d :: a :: b :: suf :=
      dropWhile_ws_append _ _ (fun x hx => List.mem_takeWhile_imp hx)
        (by intro x hx
            obtain rfl : d = x := by simpa using hx
            exact isWs_eq_false_of_isDigit hd)
    rw [ht]
    simp [ukTail, hdw, hd, ha, hbb, hb]
  · simp at hc

/-- What a successful UK core match returns. -/
theorem ukCore_sound {letters rest m : List Char} (h : ukCore letters rest = some m) :
    ∃ body suf, rest = body ++ suf ∧ m = letters ++ body ∧
      ukAfterLetters body = true ∧ boundaryAfter suf = true := by
  simp only [ukCore] at h
  split at h
  · rename_i d rest2
    by_cases hd : d.isDigit = true
    · rw [if_pos hd] at h
      split at h
      · rename_i x rest3
        by_cases hx : (x.isAlpha || x.isDigit) = true
        · rw [if_pos hx] at h
          cases ht3 : ukTail rest3 with
          | some t =>
              simp only [ht3] at h
              obtain rfl := Option.some_injective _ h
              obtain ⟨r3, hr3, hts, hba⟩ := ukTail_sound ht3
              refine ⟨d :: x :: t, r3, ?_, rfl, ?_, hba⟩
              · conv_lhs => rw [hr3]
                simp
              · simp [ukAfterLetters, hd, hx, hts]
          | none =>
              simp only [ht3] at h
              cases ht2 : ukTail (x :: rest3) with
              | some t =>
                  simp only [ht2] at h
                  obtain rfl := Option.some_injective _ h
                  obtain ⟨r3, hr3, hts, hba⟩ := ukTail_sound ht2
                  refine ⟨d :: t, r3, ?_, rfl, ?_, hba⟩
                  · conv_lhs => rw [hr3]
                    simp
                  · simp [ukAfterLetters, hd, hts]
              | none => simp only [ht2] at h; exact absurd h (by simp)
        · rw [if_neg hx] at h
          cases ht2 : ukTail (x :: rest3) with
          | some t =>
              simp only [ht2] at h
              obtain rfl := Option.some_injective _ h
              obtain ⟨r3, hr3, hts, hba⟩ := ukTail_sound ht2
              refine ⟨d :: t, r3, ?_, rfl, ?_, hba⟩
              · conv_lhs => rw [hr3]
                simp
              · simp [ukAfterLetters, hd, hts]
          | none => simp only [ht2] at h; exact absurd h (by simp)
      · simp [ukTail] at h
    · rw [if_neg hd] at h; simp at h
  · simp at h

/-- The UK core matcher accepts every full after-letters body followed by a
boundary. -/
theorem ukCore_complete {letters body suf : List Char} (hc : ukAfterLetters body = true)
    (hb : boundaryAfter suf = true) : (ukCore letters (body ++ suf)).isSome = true := by
  cases body with
  | nil => simp [ukAfterLetters] at hc
  | cons d rest =>
      simp only [ukAfterLetters, Bool.and_eq_true] at hc
      obtain ⟨hd, hor⟩ := hc
      simp only [List.cons_append, ukCore, hd, if_true]
      rw [Bool.or_eq_true] at hor
      rcases hor with hts | hopt
      · have h2 := ukTail_complete hts hb
        obtain ⟨t, ht⟩ := Option.isSome_iff_exists.mp h2
        split
        · rename_i x rest3 heq
          by_cases hx : (x.isAlpha || x.isDigit) = true
          · rw [if_pos hx]
            cases ht3 : ukTail rest3 with
            | some t2 => simp [ht3]
            | none =>
                simp only [ht3]
                simp [ht]
          · rw [if_neg hx]
            simp [ht]
        · simp [ht]
      · split at hopt
        · rename_i x rest2
          rw [Bool.and_eq_true] at hopt
          obtain ⟨hx, hts2⟩ := hopt
          simp only [List.cons_append]
          rw [if_pos hx]
          have h2 := ukTail_complete hts2 hb
          obtain ⟨t, ht⟩ := Option.isSome_iff_exists.mp h2
          simp [ht]
        · simp at hopt

/-- What a successful UK match returns. -/
theorem tryUKAt_sound {cs m : List Char} (h : tryUKAt cs = some m) :
    ∃ suf, cs = m ++ suf ∧ ukCodeSpec m = true ∧ boundaryAfter suf = true := by
  simp only [tryUKAt] at h
  split at h
  · rename_i a rest
    by_cases ha : a.isAlpha = true
    · rw [if_pos ha] at h
      split at h
      · rename_i b rest2
        by_cases hbA : b.isAlpha = true
        · rw [if_pos hbA] at h
          cases h2 : ukCore [a, b] rest2 with
          | some m2 =>
              simp only [h2] at h
              obtain rfl := Option.some_injective _ h
              obtain ⟨body, suf, hsplit, hm, hafter, hba⟩ := ukCore_sound h2
              refine ⟨suf, ?_, ?_, hba⟩
              · conv_lhs => rw [hsplit]
                rw [hm]
                simp
              · rw [hm]
                simp [ukCodeSpec, ha, hbA, hafter]
          | none =>
              simp only [h2] at h
              obtain ⟨body, suf, hsplit, hm, hafter, hba⟩ := ukCore_sound h
              refine ⟨suf, ?_, ?_, hba⟩
              · conv_lhs => rw [hsplit]
                rw [hm]
                simp
              · rw [hm]
                simp [ukCodeSpec, ha, hafter]
        · rw [if_neg hbA] at h
          obtain ⟨body, suf, hsplit, hm, hafter, hba⟩ := ukCore_sound h
          refine ⟨suf, ?_, ?_, hba⟩
          · conv_lhs => rw [hsplit]
            rw [hm]
            simp
          · rw [hm]
            simp [ukCodeSpec, ha, hafter]
      · simp [ukCore] at h
    · rw [if_neg ha] at h; simp at h
  · simp at h

/-- The UK matcher accepts every full UK code followed by a boundary. -/
theorem tryUKAt_complete {code suf : List Char} (hc : ukCodeSpec code = true)
    (hb : boundaryAfter suf = true) : (tryUKAt (code ++ suf)).isSome = true := by
  cases code with
  | nil => simp [ukCodeSpec] at hc
  | cons a rest =>
      simp only [ukCodeSpec, Bool.and_eq_true] at hc
      obtain ⟨ha, hor⟩ := hc
      simp only [List.cons_append, tryUKAt, ha, if_true]
      rw [Bool.or_eq_true] at hor
      rcases hor with hafter | hopt
      · have hcore := @ukCore_complete [a] _ _ hafter hb
        split
        · rename_i b rest2 heq
          by_cases hbA : b.isAlpha = true
          · rw [if_pos hbA]
            cases hk : ukCore [a, b] rest2 with
            | some m => simp [hk]
            | none =>
                simp only [hk]
                exact hcore
          · rw [if_neg hbA]
            exact hcore
        · exact hcore
      · split at hopt
        · rename_i b rest2
          rw [Bool.and_eq_true] at hopt
          obtain ⟨hbA, hafter2⟩ := hopt
          simp only [List.cons_append]
          rw [if_pos hbA]
          have hcore := @ukCore_complete [a, b] _ _ hafter2 hb
          obtain ⟨m, hm⟩ := Option.isSome_iff_exists.mp hcore
          simp [hm]
        · simp at hopt

/-- What a successful match of the registered pattern returns: a full code
of the registered region and an after-boundary. -/
theorem patternFor_sound {country : String} {cs m : List Char}
    (h : patternFor country cs = some m) :
    ∃ suf, cs = m ++ suf ∧ regionCodeSpec country m = true ∧ boundaryAfter suf = true := by
  by_cases hCA : country = "CA"
  · subst hCA
    rw [show patternFor "CA" = tryCAAt from by simp [patternFor]] at h
    obtain ⟨suf, h1, h2, h3⟩ := tryCAAt_sound h
    exact ⟨suf, h1, by simpa [regionCodeSpec] using h2, h3⟩
  by_cases hUK : country = "UK"
  · subst hUK
    rw [show patternFor "UK" = tryUKAt from by simp [patternFor]] at h
    obtain ⟨suf, h1, h2, h3⟩ := tryUKAt_sound h
    exact ⟨suf, h1, by simpa [regionCodeSpec] using h2, h3⟩
  by_cases hAU : country = "AU"
  · subst hAU
    rw [show patternFor "AU" = tryDigitsOnlyAt 4 from by simp [patternFor]] at h
    obtain ⟨suf, h1, h2, h3⟩ := tryDigitsOnlyAt_sound h
    exact ⟨suf, h1, by simpa [regionCodeSpec] using h2, h3⟩
  by_cases hDE : country = "DE"
  · subst hDE
    rw [show patternFor "DE" = tryDigitsOnlyAt 5 from by simp [patternFor]] at h
    obtain ⟨suf, h1, h2, h3⟩ := tryDigitsOnlyAt_sound h
    exact ⟨suf, h1, by simpa [regionCodeSpec] using h2, h3⟩
  by_cases hFR : country = "FR"
  · subst hFR
    rw [show patternFor "FR" = tryDigitsOnlyAt 5 from by simp [patternFor]] at h
    obtain ⟨suf, h1, h2, h3⟩ := tryDigitsOnlyAt_sound h
    exact ⟨suf, h1, by simpa [regionCodeSpec] using h2, h3⟩
  have hp : patternFor country = tryUSAt := by
    by_cases hUS : country = "US"
    · subst hUS
      simp [patternFor]
    · simp only [patternFor]
      rw [show (country == "US") = false from by simpa using hUS,
        show (country == "CA") = false from by simpa using hCA,
        show (country == "UK") = false from by simpa using hUK,
        show (country == "AU") = false from by simpa using hAU,
        show (country == "DE") = false from by simpa using hDE,
        show (country == "FR") = false from by simpa using hFR]
      simp
  have hr : ∀ code, regionCodeSpec country code = usCodeSpec code := by
    intro code
    simp only [regionCodeSpec]
    rw [show (country == "CA") = false from by simpa using hCA,
      show (country == "UK") = false from by simpa using hUK,
      show (country == "AU") = false from by simpa using hAU,
      show (country == "DE") = false from by simpa using hDE,
      show (country == "FR") = false from by simpa using hFR]
    simp
  rw [hp] at h
  obtain ⟨suf, h1, h2, h3⟩ := tryUSAt_sound h
  refine ⟨suf, h1, ?_, h3⟩
  rw [hr]
  exact h2

/-- The registered pattern matches every full code of its region followed by
a boundary. -/
theorem patternFor_complete {country : String} {code suf : List Char}
    (hc : regionCodeSpec country code = true) (hb : boundaryAfter suf = true) :
    (patternFor country (code ++ suf)).isSome = true := by
  by_cases hCA : country = "CA"
  · subst hCA
    rw [show patternFor "CA" = tryCAAt from by simp [patternFor]]
    exact tryCAAt_complete (by simpa [regionCodeSpec] using hc) hb
  by_cases hUK : country = "UK"
  · subst hUK
    rw [show patternFor "UK" = tryUKAt from by simp [patternFor]]
    exact tryUKAt_complete (by simpa [regionCodeSpec] using hc) hb
  by_cases hAU : country = "AU"
  · subst hAU
    rw [show patternFor "AU" = tryDigitsOnlyAt 4 from by simp [patternFor]]
    exact tryDigitsOnlyAt_complete (by simpa [regionCodeSpec] using hc) hb
  by_cases hDE : country = "DE"
  · subst hDE
    rw [show patternFor "DE" = tryDigitsOnlyAt 5 from by simp [patternFor]]
    exact tryDigitsOnlyAt_complete (by simpa [regionCodeSpec] using hc) hb
  by_cases hFR : country = "FR"
  · subst hFR
    rw [show patternFor "FR" = tryDigitsOnlyAt 5 from by simp [patternFor]]
    exact tryDigitsOnlyAt_complete (by simpa [regionCodeSpec] using hc) hb
  have hp : patternFor country = tryUSAt := by
    by_cases hUS : country = "US"
    · subst hUS
      simp [patternFor]
    · simp only [patternFor]
      rw [show (country == "US") = false from by simpa using hUS,
        show (country == "CA") = false from by simpa using hCA,
        show (country == "UK") = false from by simpa using hUK,
        show (country == "AU") = false from by simpa using hAU,
        show (country == "DE") = false from by simpa using hDE,
        show (country == "FR") = false from by simpa using hFR]
      simp
  have hr : regionCodeSpec country code = usCodeSpec code := by
    simp only [regionCodeSpec]
    rw [show (country == "CA") = false from by simpa using hCA,
      show (country == "UK") = false from by simpa using hUK,
      show (country == "AU") = false from by simpa using hAU,
      show (country == "DE") = false from by simpa using hDE,
      show (country == "FR") = false from by simpa using hFR]
    simp
  rw [hp]
  rw [hr] at hc
  exact tryUSAt_complete hc hb

/-- C5, counterexample: `isValidPostalCode` uses `pattern.test`, a substring
search, so a string that merely contains a delimited ZIP among other text is
accepted, where the claim requires rejection of everything that is not
entirely a postal code. -/
theorem c5_substring_counterexample :
    isValidPostalCode "zip 12345 ok" "US" = true := by decide


/-- C5 (amended): `isValidPostalCode` runs the region pattern registered for
the country hint (the US pattern for any unknown country) in SUBSTRING-search
mode: it accepts exactly the strings containing a full code of that region
delimited by word boundaries.  Hence every string that is entirely a valid
regional code is accepted, every string with no delimited occurrence of a
regional code is rejected, but a delimited code surrounded by other text is
also accepted — full-match validation is what fails. -/
theorem c5_postal_code_matching :
    ∀ (country s : String),
      isValidPostalCode s country = true ↔
        ∃ pre code suf : List Char, s.data = pre ++ code ++ suf ∧
          regionCodeSpec country code = true ∧
          (∀ c, pre.getLast? = some c → isWordChar c = false) ∧
          (∀ c, suf.head? = some c → isWordChar c = false) := by
  intro country s
  constructor
  · intro h
    simp only [isValidPostalCode] at h
    by_cases hs : (s == "") = true
    · rw [if_pos hs] at h
      simp at h
    · rw [if_neg hs] at h
      obtain ⟨m, hm⟩ := Option.isSome_iff_exists.mp h
      obtain ⟨pre, rest, hsplit, hbok, htry⟩ := scanMatch_sound _ s.data none m hm
      obtain ⟨suf, hrest, hspec, hba⟩ := patternFor_sound htry
      refine ⟨pre, m, suf, ?_, hspec, ?_, head_of_boundaryAfter hba⟩
      · rw [hsplit, hrest, List.append_assoc]
      · intro c hc
        rw [lastOpt_eq, hc] at hbok
        simpa [boundaryOK] using hbok
  · rintro ⟨pre, code, suf, hsplit, hspec, hpre, hsuf⟩
    have hcodene : code ≠ [] := by
      intro hnil
      rw [hnil, regionCodeSpec_nil] at hspec
      simp at hspec
    have hne : (s == "") = false := by
      rw [beq_eq_false_iff_ne]
      intro hcontra
      rw [hcontra] at hsplit
      have hnil : ([] : List Char) = pre ++ code ++ suf := hsplit
      rcases List.append_eq_nil.mp hnil.symm with ⟨h1, h2⟩
      exact hcodene (List.append_eq_nil.mp h1).2
    simp only [isValidPostalCode, hne, Bool.false_eq_true, if_false]
    have hba : boundaryAfter suf = true := boundaryAfter_of_head hsuf
    have htr := patternFor_complete hspec hba
    have hfound := scanMatch_found (patternFor country) pre (code ++ suf) hpre htr
    rw [hsplit, List.append_assoc]
    exact hfound


/-- C5 witness: the characterization applied at concrete inputs — a full code
of each registered region, an unknown country falling back to the US shape, a
delimited ZIP inside surrounding text, and a string with no code at all. -/
theorem c5_postal_code_matching_witness :
    isValidPostalCode "90210" "US" = true ∧
    isValidPostalCode "12345-6789" "US" = true ∧
    isValidPostalCode "K1A 0B1" "CA" = true ∧
    isValidPostalCode "SW1A 1AA" "UK" = true ∧
    isValidPostalCode "2600" "AU" = true ∧
    isValidPostalCode "10115" "DE" = true ∧
    isValidPostalCode "75001" "FR" = true ∧
    isValidPostalCode "90210" "MX" = true ∧
    isValidPostalCode "zip 12345 ok" "US" = true ∧
    isValidPostalCode "no code here" "US" = false := by
  refine ⟨?_, ?_, ?_, ?_, ?_, ?_, ?_, ?_, ?_, by decide⟩
  · exact (c5_postal_code_matching "US" "90210").mpr
      ⟨[], "90210".data, [], by decide, by decide, by simp, by simp⟩
  · exact (c5_postal_code_matching "US" "12345-6789").mpr
      ⟨[], "12345-6789".data, [], by decide, by decide, by simp, by simp⟩
  · exact (c5_postal_code_matching "CA" "K1A 0B1").mpr
      ⟨[], "K1A 0B1".data, [], by decide, by decide, by simp, by simp⟩
  · exact (c5_postal_code_matching "UK" "SW1A 1AA").mpr
      ⟨[], "SW1A 1AA".data, [], by decide, by decide, by simp, by simp⟩
  · exact (c5_postal_code_matching "AU" "2600").mpr
      ⟨[], "2600".data, [], by decide, by decide, by simp, by simp⟩
  · exact (c5_postal_code_matching "DE" "10115").mpr
      ⟨[], "10115".data, [], by decide, by decide, by simp, by simp⟩
  · exact (c5_postal_code_matching "FR" "75001").mpr
      ⟨[], "75001".data, [], by decide, by decide, by simp, by simp⟩
  · exact (c5_postal_code_matching "MX" "90210").mpr
      ⟨[], "90210".data, [], by decide, by decide, by simp, by simp⟩
  · exact (c5_postal_code_matching "US" "zip 12345 ok").mpr
      ⟨"zip ".data, "12345".data, " ok".data, by decide, by decide, by decide, by decide⟩


/-- A dollar run found by `dollarRunAux` is a nonempty list of dollar signs. -/
theorem dollarRunAux_spec : ∀ l r, dollarRunAux l = some r →
    r ≠ [] ∧ r.all (fun c => c == '$') = true := by
  intro l
  induction l with
  | nil => intro r h; simp [dollarRunAux] at h
  | cons c t ih =>
      intro r h
      simp only [dollarRunAux] at h
      by_cases hc : c = '$'
      · rw [if_pos (by simpa using hc)] at h
        obtain rfl := Option.some_injective _ h.symm
        refine ⟨by simp, ?_⟩
        simp only [List.all_cons, Bool.and_eq_true]
        refine ⟨by simpa using hc, ?_⟩
        simp only [List.all_eq_true]
        exact fun x hx => List.mem_takeWhile_imp (p := fun d => d == '$') hx
      · rw [if_neg (by simpa using hc)] at h
        exact ih r h


/-- C9, counterexample: the canonical-shape check in `validatePriceRange` is
`/^\$+$/`, which accepts runs of any length, so an explicitly provided tier of
five dollar signs is preserved verbatim even though it is not one of the four
ordinal tiers. -/
theorem c9_five_dollar_counterexample :
    validatePriceRange "$$$$$" = "$$$$$" ∧
    "$$$$$" ≠ "$" ∧ "$$$$$" ≠ "$$" ∧ "$$$$$" ≠ "$$$" ∧ "$$$$$" ≠ "$$$$" := by
  refine ⟨by decide, by decide, by decide, by decide, by decide⟩


/-- C9 (amended): for nonempty input the normalized price tier is always a
nonempty run of dollar signs, but not necessarily one of the four tiers: an
input whose trimmed form already consists solely of dollar signs is preserved
verbatim, runs longer than four included; descriptive language such as
"moderate" (with no stronger keyword present) is converted to the canonical
second tier. -/
theorem c9_price_range_shape :
    (∀ s, s ≠ "" → (validatePriceRange s).data ≠ [] ∧
      (validatePriceRange s).data.all (fun c => c == '$') = true)
  ∧ (∀ s, isAllDollars (jsTrim s) = true → validatePriceRange s = jsTrim s)
  ∧ (∀ s, isAllDollars (jsTrim s) = false →
      strIncludes (jsLower (jsTrim s)) "luxury" = false →
      strIncludes (jsLower (jsTrim s)) "exclusive" = false →
      strIncludes (jsLower (jsTrim s)) "premium" = false →
      strIncludes (jsLower (jsTrim s)) "very expensive" = false →
      strIncludes (jsLower (jsTrim s)) "expensive" = false →
      strIncludes (jsLower (jsTrim s)) "upscale" = false →
      strIncludes (jsLower (jsTrim s)) "high-end" = false →
      strIncludes (jsLower (jsTrim s)) "moderate" = true →
      validatePriceRange s = "$$") := by
  refine ⟨?_, ?_, ?_⟩
  · intro s hs
    simp only [validatePriceRange]
    rw [show (s == "") = false from by simpa using hs]
    simp only [Bool.false_eq_true, if_false]
    split
    · rename_i hA
      simp only [isAllDollars, Bool.and_eq_true, Bool.not_eq_eq_eq_not, Bool.not_true] at hA
      exact ⟨by simpa using hA.1, hA.2⟩
    · split
      · exact ⟨by decide, by decide⟩
      · split
        · exact ⟨by decide, by decide⟩
        · split
          · exact ⟨by decide, by decide⟩
          · split
            · exact ⟨by decide, by decide⟩
            · split
              · rename_i run hrun
                simp only [firstDollarRun] at hrun
                cases haux : dollarRunAux (jsTrim s).data with
                | none => rw [haux] at hrun; simp at hrun
                | some r =>
                    rw [haux] at hrun
                    obtain rfl := Option.some_injective _ hrun.symm
                    obtain ⟨h1, h2⟩ := dollarRunAux_spec _ _ haux
                    exact ⟨h1, h2⟩
              · exact ⟨by decide, by decide⟩
  · intro s hA
    rcases eq_or_ne s "" with rfl | hs
    · simp [jsTrim, isAllDollars] at hA
    · simp only [validatePriceRange]
      rw [show (s == "") = false from by simpa using hs]
      simp [hA]
  · intro s hA h1 h2 h3 h4 h5 h6 h7 hmod
    have hs : s ≠ "" := by
      intro h
      subst h
      simp [jsTrim, jsLower, strIncludes, containsSub] at hmod
    simp only [validatePriceRange]
    rw [show (s == "") = false from by simpa using hs]
    simp [hA, h1, h2, h3, h4, h5, h6, h7, hmod]


/-- C9 witness: the amended shape theorem applied at concrete tiers — an
all-dollar input is preserved, and the descriptive word moderate converts to
the canonical second tier. -/
theorem c9_price_range_shape_witness :
    validatePriceRange " $$$ " = "$$$" ∧
    validatePriceRange "Moderate pricing" = "$$" := by
  constructor
  · have h := c9_price_range_shape.2.1 " $$$ " (by decide)
    rw [h]; decide
  · exact c9_price_range_shape.2.2 "Moderate pricing" (by decide) (by decide) (by decide)
      (by decide) (by decide) (by decide) (by decide) (by decide) (by decide)


/-- C8, counterexample: the synthesis-side hours parser `formatBusinessHours`
accepts only 24-hour `HH:MM` times, so the line
`Monday-Friday: 9:00 AM-5:00 PM` fails time validation in both line shapes
and is dropped entirely — it yields no opening-hours nodes at all, not the
five nodes the claim promises. -/
theorem c8_format_business_hours_counterexample :
    formatBusinessHours "Monday-Friday: 9:00 AM-5:00 PM" = some [] := by decide


/-- C8 (amended): it is the scraper-side extraction (`hoursPattern1` in
`parseHtmlContent`) that parses `Monday-Friday: 9:00 AM-5:00 PM` into exactly
five opening-hours nodes, Monday through Friday, each with opens 09:00 and
closes 17:00, expanding the day range and converting 12-hour times; the
utils-side `formatBusinessHours` drops the line instead. -/
theorem c8_scraper_hours_five_nodes :
    parseScrapedHours "Monday-Friday: 9:00 AM-5:00 PM" =
      [⟨"Monday", "09:00", "17:00"⟩, ⟨"Tuesday", "09:00", "17:00"⟩,
       ⟨"Wednesday", "09:00", "17:00"⟩, ⟨"Thursday", "09:00", "17:00"⟩,
       ⟨"Friday", "09:00", "17:00"⟩] := by decide


theorem Dec.ltInt_iff (d : Dec) (c : ℤ) : d.ltInt c = true ↔ d.toRat < (c : ℚ) := by
  have hpos : (0 : ℚ) < (10 : ℚ) ^ d.exp := by positivity
  rw [Dec.ltInt, Dec.toRat, div_lt_iff₀ hpos]
  rw [decide_eq_true_eq]
  constructor
  · intro h
    calc (d.num : ℚ) < ((c * 10 ^ d.exp : ℤ) : ℚ) := by exact_mod_cast h
    _ = (c : ℚ) * (10 : ℚ) ^ d.exp := by push_cast; ring
  · intro h
    have : (d.num : ℚ) < ((c * 10 ^ d.exp : ℤ) : ℚ) := by
      calc (d.num : ℚ) < (c : ℚ) * (10 : ℚ) ^ d.exp := h
      _ = ((c * 10 ^ d.exp : ℤ) : ℚ) := by push_cast; ring
    exact_mod_cast this


theorem Dec.gtInt_iff (d : Dec) (c : ℤ) : d.gtInt c = true ↔ (c : ℚ) < d.toRat := by
  have hpos : (0 : ℚ) < (10 : ℚ) ^ d.exp := by positivity
  rw [Dec.gtInt, Dec.toRat, lt_div_iff₀ hpos]
  rw [decide_eq_true_eq]
  constructor
  · intro h
    calc (c : ℚ) * (10 : ℚ) ^ d.exp = ((c * 10 ^ d.exp : ℤ) : ℚ) := by push_cast; ring
    _ < (d.num : ℚ) := by exact_mod_cast h
  · intro h
    have : ((c * 10 ^ d.exp : ℤ) : ℚ) < (d.num : ℚ) := by
      calc ((c * 10 ^ d.exp : ℤ) : ℚ) = (c : ℚ) * (10 : ℚ) ^ d.exp := by push_cast; ring
      _ < (d.num : ℚ) := h
    exact_mod_cast this


/-- A list with a member is not empty. -/
theorem mem_isEmpty_false {l : List String} {x : String} (h : x ∈ l) :
    l.isEmpty = false := by
  cases l
  · simp at h
  · simp


/-- Membership in a conditional singleton. -/
theorem mem_ite_singleton {c : Prop} [Decidable c] {a x : String} :
    (x ∈ if c then [a] else []) ↔ c ∧ x = a := by
  split <;> simp_all


/-- In lenient mode every field-specific error branch is silent, so the error
list is exactly the required-field list. -/
theorem lenient_errors_eq (fd : FormData) :
    (validateFormData fd true).errors = requiredErrors fd true := by
  have e1 : emailErrs fd true = [] := by cases h : fd.email <;> simp [emailErrs, h]
  have e2 : urlErrs fd true = [] := by cases h : fd.websiteUrl <;> simp [urlErrs, h]
  have e3 : logoErrs fd true = [] := by cases h : fd.publisherLogoUrl <;> simp [logoErrs, h]
  have e4 : latErrs fd true = [] := by cases h : fd.latitude <;> simp [latErrs, h]
  have e5 : lngErrs fd true = [] := by cases h : fd.longitude <;> simp [lngErrs, h]
  have e6 : ratingErrs fd true = [] := by cases h : fd.ratingValue <;> simp [ratingErrs, h]
  have e7 : countErrs fd true = [] := by cases h : fd.reviewCount <;> simp [countErrs, h]
  simp [validateFormData, e1, e2, e3, e4, e5, e6, e7]


/-- The lenient-mode required errors are drawn from a fixed message set. -/
theorem required_msgs_lenient (fd : FormData) (x : String)
    (h : x ∈ requiredErrors fd true) :
    x = "Article headline is required" ∨ x = "Author name is required" ∨
    x = "Publisher name is required" ∨ x = "How-to title is required" ∨
    x = "Business name is required" ∨ x = "Business description is required" := by
  simp only [requiredErrors] at h
  split at h
  · simp only [List.mem_append, mem_ite_singleton] at h
    rcases h with (⟨_, rfl⟩ | ⟨_, rfl⟩) | ⟨_, rfl⟩ <;> tauto
  · split at h
    · simp only [mem_ite_singleton] at h
      rcases h with ⟨_, rfl⟩
      tauto
    · cases hpc : fd.postalCode with
      | none =>
          simp [hpc, mem_ite_singleton] at h
          tauto
      | some s =>
          simp [hpc, mem_ite_singleton] at h
          tauto


/-- C7: for each of email, website URL, latitude, longitude, rating value and
review count: a present, invalid value in strict mode (human entry) makes
`validateFormData` return `isValid = false` with the field's human-readable
message in the error list, while in lenient mode (AI generated) the field is
removed from the cleaned data and its message is not added; the numeric
invalidity tests mean exactly latitude outside [-90, 90], longitude outside
[-180, 180], rating outside [1, 5] and count below 1 (or an unparseable
value). -/
theorem c7_strict_lenient_validation :
    (∀ fd s, fd.email = some s → s ≠ "" → isValidEmail s = false →
      ((validateFormData fd false).isValid = false ∧
        "Invalid email format" ∈ (validateFormData fd false).errors) ∧
      ((validateFormData fd true).cleanedData.email = none ∧
        "Invalid email format" ∉ (validateFormData fd true).errors))
  ∧ (∀ fd s, fd.websiteUrl = some s → s ≠ "" → isValidUrl s = false →
      ((validateFormData fd false).isValid = false ∧
        "Invalid website URL" ∈ (validateFormData fd false).errors) ∧
      ((validateFormData fd true).cleanedData.websiteUrl = none ∧
        "Invalid website URL" ∉ (validateFormData fd true).errors))
  ∧ (∀ fd s, fd.latitude = some s → s ≠ "" → latInvalid s = true →
      ((validateFormData fd false).isValid = false ∧
        "Invalid latitude (must be between -90 and 90)" ∈
          (validateFormData fd false).errors) ∧
      ((validateFormData fd true).cleanedData.latitude = none ∧
        "Invalid latitude (must be between -90 and 90)" ∉
          (validateFormData fd true).errors))
  ∧ (∀ fd s, fd.longitude = some s → s ≠ "" → lngInvalid s = true →
      ((validateFormData fd false).isValid = false ∧
        "Invalid longitude (must be between -180 and 180)" ∈
          (validateFormData fd false).errors) ∧
      ((validateFormData fd true).cleanedData.longitude = none ∧
        "Invalid longitude (must be between -180 and 180)" ∉
          (validateFormData fd true).errors))
  ∧ (∀ fd s, fd.ratingValue = some s → s ≠ "" → ratingInvalid s = true →
      ((validateFormData fd false).isValid = false ∧
        "Rating must be between 1 and 5" ∈ (validateFormData fd false).errors) ∧
      ((validateFormData fd true).cleanedData.ratingValue = none ∧
        "Rating must be between 1 and 5" ∉ (validateFormData fd true).errors))
  ∧ (∀ fd s, fd.reviewCount = some s → s ≠ "" → countInvalid s = true →
      ((validateFormData fd false).isValid = false ∧
        "Review count must be a positive number" ∈
          (validateFormData fd false).errors) ∧
      ((validateFormData fd true).cleanedData.reviewCount = none ∧
        "Review count must be a positive number" ∉
          (validateFormData fd true).errors))
  ∧ (∀ s d, jsParseFloat s = some d →
      (latInvalid s = true ↔ (d.toRat < -90 ∨ 90 < d.toRat)))
  ∧ (∀ s d, jsParseFloat s = some d →
      (ratingInvalid s = true ↔ (d.toRat < 1 ∨ 5 < d.toRat)))
  ∧ (∀ s c, jsParseInt s = some c → (countInvalid s = true ↔ c < 1)) := by
  have hiv : ∀ fd (ai : Bool), (validateFormData fd ai).isValid =
      (validateFormData fd ai).errors.isEmpty := fun fd ai => rfl
  have hnotmem : ∀ (fd : FormData) (m : String),
      m ≠ "Article headline is required" → m ≠ "Author name is required" →
      m ≠ "Publisher name is required" → m ≠ "How-to title is required" →
      m ≠ "Business name is required" → m ≠ "Business description is required" →
      m ∉ (validateFormData fd true).errors := by
    intro fd m h1 h2 h3 h4 h5 h6 hmem
    rw [lenient_errors_eq] at hmem
    rcases required_msgs_lenient fd m hmem with h | h | h | h | h | h
    · exact h1 h
    · exact h2 h
    · exact h3 h
    · exact h4 h
    · exact h5 h
    · exact h6 h
  refine ⟨?_, ?_, ?_, ?_, ?_, ?_, ?_, ?_, ?_⟩
  · intro fd s hf hs hbad
    have hm : emailErrs fd false = ["Invalid email format"] := by
      simp [emailErrs, hf, hs, hbad]
    have hmem : "Invalid email format" ∈ (validateFormData fd false).errors := by
      simp [validateFormData, hm]
    refine ⟨⟨by rw [hiv]; exact mem_isEmpty_false hmem, hmem⟩, ?_, ?_⟩
    · simp [validateFormData, droppedIfInvalid, hf, hs, hbad]
    · exact hnotmem fd _ (by decide) (by decide) (by decide) (by decide) (by decide)
        (by decide)
  · intro fd s hf hs hbad
    have hm : urlErrs fd false = ["Invalid website URL"] := by
      simp [urlErrs, hf, hs, hbad]
    have hmem : "Invalid website URL" ∈ (validateFormData fd false).errors := by
      simp [validateFormData, hm]
    refine ⟨⟨by rw [hiv]; exact mem_isEmpty_false hmem, hmem⟩, ?_, ?_⟩
    · simp [validateFormData, droppedIfInvalid, hf, hs, hbad]
    · exact hnotmem fd _ (by decide) (by decide) (by decide) (by decide) (by decide)
        (by decide)
  · intro fd s hf hs hbad
    have hm : latErrs fd false = ["Invalid latitude (must be between -90 and 90)"] := by
      simp [latErrs, hf, hs, hbad]
    have hmem : "Invalid latitude (must be between -90 and 90)" ∈
        (validateFormData fd false).errors := by
      simp [validateFormData, hm]
    refine ⟨⟨by rw [hiv]; exact mem_isEmpty_false hmem, hmem⟩, ?_, ?_⟩
    · simp [validateFormData, droppedIfInvalid, hf, hs, hbad]
    · exact hnotmem fd _ (by decide) (by decide) (by decide) (by decide) (by decide)
        (by decide)
  · intro fd s hf hs hbad
    have hm : lngErrs fd false = ["Invalid longitude (must be between -180 and 180)"] := by
      simp [lngErrs, hf, hs, hbad]
    have hmem : "Invalid longitude (must be between -180 and 180)" ∈
        (validateFormData fd false).errors := by
      simp [validateFormData, hm]
    refine ⟨⟨by rw [hiv]; exact mem_isEmpty_false hmem, hmem⟩, ?_, ?_⟩
    · simp [validateFormData, droppedIfInvalid, hf, hs, hbad]
    · exact hnotmem fd _ (by decide) (by decide) (by decide) (by decide) (by decide)
        (by decide)
  · intro fd s hf hs hbad
    have hm : ratingErrs fd false = ["Rating must be between 1 and 5"] := by
      simp [ratingErrs, hf, hs, hbad]
    have hmem : "Rating must be between 1 and 5" ∈ (validateFormData fd false).errors := by
      simp [validateFormData, hm]
    refine ⟨⟨by rw [hiv]; exact mem_isEmpty_false hmem, hmem⟩, ?_, ?_⟩
    · simp [validateFormData, droppedIfInvalid, hf, hs, hbad]
    · exact hnotmem fd _ (by decide) (by decide) (by decide) (by decide) (by decide)
        (by decide)
  · intro fd s hf hs hbad
    have hm : countErrs fd false = ["Review count must be a positive number"] := by
      simp [countErrs, hf, hs, hbad]
    have hmem : "Review count must be a positive number" ∈
        (validateFormData fd false).errors := by
      simp [validateFormData, hm]
    refine ⟨⟨by rw [hiv]; exact mem_isEmpty_false hmem, hmem⟩, ?_, ?_⟩
    · simp [validateFormData, droppedIfInvalid, hf, hs, hbad]
    · exact hnotmem fd _ (by decide) (by decide) (by decide) (by decide) (by decide)
        (by decide)
  · intro s d h
    simp only [latInvalid, h, Bool.or_eq_true, Dec.ltInt_iff, Dec.gtInt_iff]
    norm_num
  · intro s d h
    simp only [ratingInvalid, h, Bool.or_eq_true, Dec.ltInt_iff, Dec.gtInt_iff]
    norm_num
  · intro s c h
    simp only [countInvalid, h, decide_eq_true_eq]


/-- C7 witness: the strict/lenient contract applied to concrete invalid
fields. -/
theorem c7_strict_lenient_validation_witness :
    ((validateFormData c7FormDataExample false).isValid = false ∧
      "Invalid email format" ∈ (validateFormData c7FormDataExample false).errors) ∧
    ((validateFormData c7FormDataExample true).cleanedData.email = none ∧
      "Invalid email format" ∉ (validateFormData c7FormDataExample true).errors) ∧
    ((validateFormData c7FormDataExample true).cleanedData.latitude = none ∧
      (validateFormData c7FormDataExample true).cleanedData.ratingValue = none) := by
  have h1 := c7_strict_lenient_validation.1 c7FormDataExample "bad" (by decide)
    (by decide) (by decide)
  have h3 := c7_strict_lenient_validation.2.2.1 c7FormDataExample "95" (by decide)
    (by decide) (by decide)
  have h5 := c7_strict_lenient_validation.2.2.2.2.1 c7FormDataExample "9" (by decide)
    (by decide) (by decide)
  exact ⟨h1.1, h1.2, h3.2.1, h5.2.1⟩


/-- Reading back the key just set. -/
theorem getF_setF_same : ∀ (fs : ValFields) (k : String) (v : Val),
    getF (setF fs k v) k = some v
  | fnil, k, v => by simp [setF, getF]
  | fcons k2 w rest, k, v => by
      simp only [setF]
      by_cases h : k2 = k
      · subst h
        simp [getF]
      · rw [if_neg (by simpa using h)]
        simp only [getF]
        rw [if_neg (by simpa using h)]
        exact getF_setF_same rest k v

/-- Setting one key leaves the others unchanged. -/
theorem getF_setF_other : ∀ (fs : ValFields) (k k2 : String) (v : Val), k ≠ k2 →
    getF (setF fs k v) k2 = getF fs k2
  | fnil, k, k2, v, hne => by simp [setF, getF, hne]
  | fcons k3 w rest, k, k2, v, hne => by
      simp only [setF]
      by_cases h : k3 = k
      · subst h
        simp only [setF, beq_self_eq_true, if_true, getF]
        rw [if_neg (by simpa using hne), if_neg (by simpa using hne)]
      · rw [if_neg (by simpa using h)]
        simp only [getF]
        by_cases h2 : k3 = k2
        · rw [if_pos (by simpa using h2), if_pos (by simpa using h2)]
        · rw [if_neg (by simpa using h2), if_neg (by simpa using h2)]
          exact getF_setF_other rest k k2 v hne

/-- The generic reduce keeps a primitive, keepable field binding unchanged
(first binding of the key, in place). -/
theorem cleanFieldsF_getF : ∀ (fs : ValFields) (fuel : ℕ) (gs : ValFields)
    (k : String) (v : Val),
    cleanFieldsF fuel fs = some gs → getF fs k = some v → isContainer v = false →
    keepVal v = true → getF gs k = some v
  | fnil => by
      intro fuel gs k v hc hg _ _
      simp [getF] at hg
  | fcons k2 w rest => by
      intro fuel gs k v hc hg hcont hkeep
      cases fuel with
      | zero => simp [cleanFieldsF] at hc
      | succ m =>
          simp only [cleanFieldsF] at hc
          by_cases hk : k2 = k
          · subst hk
            have hw : w = v := by
              simpa [getF] using hg
            subst hw
            rw [hcont] at hc
            simp only [Bool.false_eq_true, if_false] at hc
            cases hrest : cleanFieldsF m rest with
            | none => rw [hrest] at hc; simp at hc
            | some rest2 =>
                rw [hrest] at hc
                simp only [hkeep, if_true] at hc
                obtain rfl := Option.some_injective _ hc.symm
                simp [getF]
          · have hg2 : getF rest k = some v := by
              simpa [getF, hk] using hg
            cases hcw : (if isContainer w then cleanObjectF m w else some w) with
            | none => rw [hcw] at hc; simp at hc
            | some v2 =>
                rw [hcw] at hc
                cases hrest : cleanFieldsF m rest with
                | none => rw [hrest] at hc; simp at hc
                | some rest2 =>
                    rw [hrest] at hc
                    have hrec := cleanFieldsF_getF rest m rest2 k v hrest hg2 hcont hkeep
                    by_cases hkv : keepVal v2 = true
                    · simp only [hkv, if_true] at hc
                      obtain rfl := Option.some_injective _ hc.symm
                      simpa [getF, hk] using hrec
                    · simp only [hkv] at hc
                      simp only [Bool.not_eq_true] at hkv
                      simp only [hkv, Bool.false_eq_true, if_false] at hc
                      obtain rfl := Option.some_injective _ hc.symm
                      exact hrec

/-- Digit strings are never empty. -/
theorem natToStrAux_ne_nil (f n : ℕ) : natToStrAux (f + 1) n ≠ [] := by
  simp only [natToStrAux]
  split
  · simp
  · simp

/-- `natToStr` is never empty. -/
theorem natToStr_ne_empty (n : ℕ) : natToStr n ≠ "" := by
  simp only [natToStr, ne_eq, String.ext_iff]
  simpa using natToStrAux_ne_nil n n

/-- `intToStr` is never empty. -/
theorem intToStr_ne_empty (i : ℤ) : intToStr i ≠ "" := by
  simp only [intToStr, ne_eq, String.ext_iff]
  intro h
  simp only [String.data_append, List.append_eq_nil] at h
  exact natToStr_ne_empty i.natAbs (by simp [String.ext_iff, h.2])

/-- The canonical decimal form is never empty. -/
theorem decToString_ne_empty (d : Dec) : decToString d ≠ "" := by
  simp only [decToString]
  split
  · exact intToStr_ne_empty _
  · simp only [ne_eq, String.ext_iff]
    intro h
    simp only [String.data_append, List.append_eq_nil] at h
    exact absurd h.1.2 (by simp)

/-- C3 counterexample: a nameless HVACBusiness node with a valid address and
phone is preserved verbatim by the cleaner, because the business-type list of
`cleanObject` does not contain `HVACBusiness` — the claim promises removal
for that content type too. -/
theorem c3_hvac_not_dropped :
    cleanObject (vObj (fcons "@type" (vStr "HVACBusiness")
      (fcons "telephone" (vStr "+1-555-123-4567")
      (fcons "address" (vObj (fcons "@type" (vStr "PostalAddress")
        (fcons "streetAddress" (vStr "12 Oak St")
        (fcons "addressLocality" (vStr "Austin")
        (fcons "addressRegion" (vStr "TX")
        (fcons "postalCode" (vStr "78701")
        (fcons "addressCountry" (vStr "US") fnil))))))) fnil)))) =
    some (vObj (fcons "@type" (vStr "HVACBusiness")
      (fcons "telephone" (vStr "+1-555-123-4567")
      (fcons "address" (vObj (fcons "@type" (vStr "PostalAddress")
        (fcons "streetAddress" (vStr "12 Oak St")
        (fcons "addressLocality" (vStr "Austin")
        (fcons "addressRegion" (vStr "TX")
        (fcons "postalCode" (vStr "78701")
        (fcons "addressCountry" (vStr "US") fnil))))))) fnil)))) ∧
    (vObj (fcons "@type" (vStr "HVACBusiness")
      (fcons "telephone" (vStr "+1-555-123-4567")
      (fcons "address" (vObj (fcons "@type" (vStr "PostalAddress")
        (fcons "streetAddress" (vStr "12 Oak St")
        (fcons "addressLocality" (vStr "Austin")
        (fcons "addressRegion" (vStr "TX")
        (fcons "postalCode" (vStr "78701")
        (fcons "addressCountry" (vStr "US") fnil))))))) fnil)))) ≠ vNull := by
  constructor
  · decide
  · decide

/-- C3 (amended): a business node with a falsy or missing name cleans to
null — hence is dropped from the document — for every `@type` in the list
the cleaner actually checks (`LocalBusiness`, `Restaurant`,
`ProfessionalService`, `LegalService`, `MedicalBusiness`,
`HomeAndConstructionBusiness`, `AutomotiveBusiness` and `Organization`; not
`HVACBusiness`), regardless of the other fields. -/
theorem c3_nameless_business_removed :
    ∀ (fs : ValFields) (t : String), getF fs "@type" = some (vStr t) →
      t ∈ businessTypes → truthyO (getF fs "name") = false →
      cleanObject (vObj fs) = some vNull := by
  intro fs t htype hmem hname
  obtain ⟨m, hm⟩ : ∃ m, fuelFor (vObj fs) = m + 1 :=
    ⟨4 * sizeVal (vObj fs) + 15, by simp [fuelFor]⟩
  simp only [cleanObject, hm]
  simp only [businessTypes, List.mem_cons, List.not_mem_nil, or_false] at hmem
  rcases hmem with rfl | rfl | rfl | rfl | rfl | rfl | rfl | rfl
  all_goals
    simp [cleanObjectF, specialStep, htype, valEqStr, truthy, businessMatch,
      businessTypes, businessStep, hname]

/-- C3 witness: a concrete nameless LocalBusiness with valid phone cleans to
null. -/
theorem c3_nameless_business_removed_witness :
    cleanObject (vObj (fcons "@type" (vStr "LocalBusiness")
      (fcons "telephone" (vStr "+1-555-123-4567") fnil))) = some vNull := by
  exact c3_nameless_business_removed
    (fcons "@type" (vStr "LocalBusiness")
      (fcons "telephone" (vStr "+1-555-123-4567") fnil))
    "LocalBusiness" (by decide) (by decide) (by decide)

/-- C10: a GeoCoordinates node whose latitude or longitude is the number 0
is removed by the cleaner (`!obj.latitude` is a truthiness test and the
number 0 is falsy), although 0 is inside the valid ranges; the same
coordinates supplied as the nonempty string "0" survive. -/
theorem c10_geo_zero_truthiness :
    (∀ (fs : ValFields) (d : Dec), getF fs "@type" = some (vStr "GeoCoordinates") →
      getF fs "latitude" = some (vNum d) → d.num = 0 →
      cleanObject (vObj fs) = some vNull)
  ∧ (∀ (fs : ValFields) (d : Dec), getF fs "@type" = some (vStr "GeoCoordinates") →
      getF fs "longitude" = some (vNum d) → d.num = 0 →
      cleanObject (vObj fs) = some vNull)
  ∧ cleanObject (vObj (fcons "@type" (vStr "GeoCoordinates")
      (fcons "latitude" (vStr "0") (fcons "longitude" (vStr "0") fnil)))) =
    some (vObj (fcons "@type" (vStr "GeoCoordinates")
      (fcons "latitude" (vStr "0") (fcons "longitude" (vStr "0") fnil)))) := by
  refine ⟨?_, ?_, by decide⟩
  · intro fs d htype hlat hz
    obtain ⟨m, hm⟩ : ∃ m, fuelFor (vObj fs) = m + 1 :=
      ⟨4 * sizeVal (vObj fs) + 15, by simp [fuelFor]⟩
    simp only [cleanObject, hm]
    have htr : truthy (vNum d) = false := by simp [truthy, hz]
    simp [cleanObjectF, specialStep, htype, valEqStr, truthy, businessMatch,
      businessTypes, geoStep, hlat, truthyO, htr, hz]
  · intro fs d htype hlng hz
    obtain ⟨m, hm⟩ : ∃ m, fuelFor (vObj fs) = m + 1 :=
      ⟨4 * sizeVal (vObj fs) + 15, by simp [fuelFor]⟩
    simp only [cleanObject, hm]
    have htr : truthy (vNum d) = false := by simp [truthy, hz]
    simp [cleanObjectF, specialStep, htype, valEqStr, truthy, businessMatch,
      businessTypes, geoStep, hlng, truthyO, htr, hz]

/-- C10 witness: the zero-coordinate removal at concrete nodes, on each of
the two coordinates. -/
theorem c10_geo_zero_truthiness_witness :
    cleanObject (vObj (fcons "@type" (vStr "GeoCoordinates")
      (fcons "latitude" (vNum ⟨0, 0⟩) (fcons "longitude" (vStr "50") fnil)))) =
      some vNull ∧
    cleanObject (vObj (fcons "@type" (vStr "GeoCoordinates")
      (fcons "latitude" (vStr "40") (fcons "longitude" (vNum ⟨0, 0⟩) fnil)))) =
      some vNull := by
  constructor
  · exact c10_geo_zero_truthiness.1
      (fcons "@type" (vStr "GeoCoordinates")
        (fcons "latitude" (vNum ⟨0, 0⟩) (fcons "longitude" (vStr "50") fnil)))
      ⟨0, 0⟩ (by decide) (by decide) (by decide)
  · exact c10_geo_zero_truthiness.2.1
      (fcons "@type" (vStr "GeoCoordinates")
        (fcons "latitude" (vStr "40") (fcons "longitude" (vNum ⟨0, 0⟩) fnil)))
      ⟨0, 0⟩ (by decide) (by decide) (by decide)

/-- Inverting the object branch of the cleaner: if wrapping the reduce result
gives an object, the reduce succeeded with exactly those fields. -/
theorem match_obj_eq {X : Option ValFields} {gs : ValFields}
    (h : (match X with
      | some gs2 => some (vObj gs2)
      | none => none) = some (vObj gs)) : X = some gs := by
  cases X with
  | none => simp at h
  | some g => simpa using h

/-- C4, counterexample: a rating node whose value does not parse as a number
survives the cleaner with `ratingValue: "NaN"` — `parseFloat("abc")` is NaN
and NaN fails both bound comparisons, so the rejection never fires — where
the claim requires every surviving rating node to carry a value in [1, 5]
and any out-of-bounds node to be removed. -/
theorem c4_nan_rating_survives :
    cleanObject (vObj (fcons "@type" (vStr "AggregateRating")
      (fcons "ratingValue" (vStr "abc") (fcons "reviewCount" (vStr "5") fnil)))) =
    some (vObj (fcons "@type" (vStr "AggregateRating")
      (fcons "ratingValue" (vStr "NaN") (fcons "reviewCount" (vStr "5")
      (fcons "bestRating" (vStr "5") (fcons "worstRating" (vStr "1") fnil)))))) ∧
    jsParseFloat "NaN" = none := by
  constructor
  · decide
  · decide

/-- C4 (amended): for an AggregateRating node, (missing) a falsy value or
count cleans the node to null; (bounds) when both fields parse, a value
outside [1, 5] or a count below 1 cleans the node to null, so every
surviving node whose fields parse satisfies 1 ≤ value ≤ 5 and 1 ≤ count;
(normalized) a surviving node carries the parsed value and count in
canonical string form (the string NaN when unparseable) and the pinned
bounds bestRating 5 and worstRating 1. -/
theorem c4_rating_bounds :
    (∀ (fs : ValFields), getF fs "@type" = some (vStr "AggregateRating") →
      (truthyO (getF fs "ratingValue") = false ∨
       truthyO (getF fs "reviewCount") = false) →
      cleanObject (vObj fs) = some vNull)
  ∧ (∀ (fs : ValFields) (rv cv : Val) (d : Dec) (c : ℤ),
      getF fs "@type" = some (vStr "AggregateRating") →
      getF fs "ratingValue" = some rv → truthy rv = true →
      getF fs "reviewCount" = some cv → truthy cv = true →
      jsParseFloatV rv = some d → jsParseIntV cv = some c →
      (d.toRat < 1 ∨ 5 < d.toRat ∨ c < 1) →
      cleanObject (vObj fs) = some vNull)
  ∧ (∀ (fs gs : ValFields) (rv cv : Val) (d : Dec) (c : ℤ),
      getF fs "@type" = some (vStr "AggregateRating") →
      getF fs "ratingValue" = some rv → truthy rv = true →
      getF fs "reviewCount" = some cv → truthy cv = true →
      jsParseFloatV rv = some d → jsParseIntV cv = some c →
      cleanObject (vObj fs) = some (vObj gs) →
      (1 ≤ d.toRat ∧ d.toRat ≤ 5 ∧ 1 ≤ c))
  ∧ (∀ (fs gs : ValFields) (rv cv : Val),
      getF fs "@type" = some (vStr "AggregateRating") →
      getF fs "ratingValue" = some rv → truthy rv = true →
      getF fs "reviewCount" = some cv → truthy cv = true →
      cleanObject (vObj fs) = some (vObj gs) →
      getF gs "ratingValue" = some (vStr (match jsParseFloatV rv with
        | some d => decToString d
        | none => "NaN")) ∧
      getF gs "reviewCount" = some (vStr (match jsParseIntV cv with
        | some c => intToStr c
        | none => "NaN")) ∧
      getF gs "bestRating" = some (vStr "5") ∧
      getF gs "worstRating" = some (vStr "1")) := by
  have hspec : ∀ fs, getF fs "@type" = some (vStr "AggregateRating") →
      specialStep fs = ratingStep fs := by
    intro fs htype
    simp [specialStep, htype, valEqStr, truthy, businessMatch, businessTypes]
  have hbadIff : ∀ (d : Dec) (c : ℤ),
      ((d.ltInt 1 || d.gtInt 5) || decide (c < 1)) = true ↔
        (d.toRat < 1 ∨ 5 < d.toRat ∨ c < 1) := by
    intro d c
    rw [Bool.or_eq_true, Bool.or_eq_true, Dec.ltInt_iff, Dec.gtInt_iff]
    simp [or_assoc]
  have hboundsNull : ∀ (fs : ValFields) (rv cv : Val) (d : Dec) (c : ℤ),
      getF fs "@type" = some (vStr "AggregateRating") →
      getF fs "ratingValue" = some rv → truthy rv = true →
      getF fs "reviewCount" = some cv → truthy cv = true →
      jsParseFloatV rv = some d → jsParseIntV cv = some c →
      (d.toRat < 1 ∨ 5 < d.toRat ∨ c < 1) →
      cleanObject (vObj fs) = some vNull := by
    intro fs rv cv d c htype hrv htr hcv htc hpd hpc hbad
    obtain ⟨m, hm⟩ : ∃ m, fuelFor (vObj fs) = m + 1 :=
      ⟨4 * sizeVal (vObj fs) + 15, by simp [fuelFor]⟩
    simp only [cleanObject, hm, cleanObjectF, hspec fs htype]
    have hb : ((d.ltInt 1 || d.gtInt 5) || decide (c < 1)) = true := (hbadIff d c).mpr hbad
    simp [ratingStep, hrv, hcv, truthyO, htr, htc, hpd, hpc, hb]
  refine ⟨?_, hboundsNull, ?_, ?_⟩
  · intro fs htype hfalsy
    obtain ⟨m, hm⟩ : ∃ m, fuelFor (vObj fs) = m + 1 :=
      ⟨4 * sizeVal (vObj fs) + 15, by simp [fuelFor]⟩
    simp only [cleanObject, hm, cleanObjectF, hspec fs htype]
    rcases hfalsy with h | h <;> simp [ratingStep, h]
  · intro fs gs rv cv d c htype hrv htr hcv htc hpd hpc hclean
    by_cases hbad : (d.toRat < 1 ∨ 5 < d.toRat ∨ c < 1)
    · exfalso
      have h2 := hboundsNull fs rv cv d c htype hrv htr hcv htc hpd hpc hbad
      rw [hclean] at h2
      simp at h2
    · push_neg at hbad
      exact ⟨hbad.1, hbad.2.1, hbad.2.2⟩
  · intro fs gs rv cv htype hrv htr hcv htc hclean
    obtain ⟨m, hm⟩ : ∃ m, fuelFor (vObj fs) = m + 1 :=
      ⟨4 * sizeVal (vObj fs) + 15, by simp [fuelFor]⟩
    simp only [cleanObject, hm, cleanObjectF, hspec fs htype] at hclean
    simp only [ratingStep, hrv, hcv, truthyO, htr, htc, Option.getD_some,
      Bool.not_true, Bool.or_self, Bool.false_eq_true, if_false] at hclean
    split at hclean
    · simp at hclean
    · simp at hclean
    · rename_i fs2 heq
      split at heq
      · simp at heq
      injection heq with h
      subst h
      have hcf := match_obj_eq hclean
      refine ⟨?_, ?_, ?_, ?_⟩
      · apply cleanFieldsF_getF _ m gs _ _ hcf
        · rw [getF_setF_other _ _ _ _ (by decide),
            getF_setF_other _ _ _ _ (by decide),
            getF_setF_other _ _ _ _ (by decide), getF_setF_same]
        · rfl
        · cases hp : jsParseFloatV rv with
          | some d => simpa [keepVal, hp] using decToString_ne_empty d
          | none => simp [keepVal, hp]
      · apply cleanFieldsF_getF _ m gs _ _ hcf
        · rw [getF_setF_other _ _ _ _ (by decide),
            getF_setF_other _ _ _ _ (by decide), getF_setF_same]
        · rfl
        · cases hp : jsParseIntV cv with
          | some c2 => simpa [keepVal, hp] using intToStr_ne_empty c2
          | none => simp [keepVal, hp]
      · apply cleanFieldsF_getF _ m gs _ _ hcf
        · rw [getF_setF_other _ _ _ _ (by decide), getF_setF_same]
        · rfl
        · simp [keepVal]
      · apply cleanFieldsF_getF _ m gs _ _ hcf
        · rw [getF_setF_same]
        · rfl
        · simp [keepVal]

/-- C4 witness: the amended rating rules applied at concrete nodes — an
out-of-bounds value is removed, and an in-range value is normalized with
pinned bounds. -/
theorem c4_rating_bounds_witness :
    cleanObject (vObj (fcons "@type" (vStr "AggregateRating")
      (fcons "ratingValue" (vStr "9") (fcons "reviewCount" (vStr "3") fnil)))) =
      some vNull ∧
    (1 ≤ (Dec.mk 45 1).toRat ∧ (Dec.mk 45 1).toRat ≤ 5 ∧ 1 ≤ (12 : ℤ)) ∧
    getF (fcons "@type" (vStr "AggregateRating")
      (fcons "ratingValue" (vStr "4.5") (fcons "reviewCount" (vStr "12")
      (fcons "bestRating" (vStr "5") (fcons "worstRating" (vStr "1") fnil)))))
      "bestRating" = some (vStr "5") := by
  refine ⟨?_, ?_, ?_⟩
  · exact c4_rating_bounds.2.1
      (fcons "@type" (vStr "AggregateRating")
        (fcons "ratingValue" (vStr "9") (fcons "reviewCount" (vStr "3") fnil)))
      (vStr "9") (vStr "3") ⟨9, 0⟩ 3 (by decide) (by decide) (by decide) (by decide)
      (by decide) (by decide) (by decide)
      (by right; left; rw [Dec.toRat]; norm_num)
  · refine ⟨?_, ?_, by norm_num⟩
    all_goals
      have h4 := c4_rating_bounds.2.2.1
        (fcons "@type" (vStr "AggregateRating")
          (fcons "ratingValue" (vStr "4.50") (fcons "reviewCount" (vStr "12") fnil)))
        (fcons "@type" (vStr "AggregateRating")
          (fcons "ratingValue" (vStr "4.5") (fcons "reviewCount" (vStr "12")
          (fcons "bestRating" (vStr "5") (fcons "worstRating" (vStr "1") fnil)))))
        (vStr "4.50") (vStr "12") ⟨450, 2⟩ 12 (by decide) (by decide) (by decide)
        (by decide) (by decide) (by decide) (by decide) (by decide)
    · have := h4.1
      rw [Dec.toRat] at this ⊢
      norm_num at this ⊢
    · have := h4.2.1
      rw [Dec.toRat] at this ⊢
      norm_num at this ⊢
  · have h4 := c4_rating_bounds.2.2.2
      (fcons "@type" (vStr "AggregateRating")
        (fcons "ratingValue" (vStr "4.50") (fcons "reviewCount" (vStr "12") fnil)))
      (fcons "@type" (vStr "AggregateRating")
        (fcons "ratingValue" (vStr "4.5") (fcons "reviewCount" (vStr "12")
        (fcons "bestRating" (vStr "5") (fcons "worstRating" (vStr "1") fnil)))))
      (vStr "4.50") (vStr "12") (by decide) (by decide) (by decide) (by decide)
      (by decide) (by decide)
    exact h4.2.2.1

/-- A type-free object has no type discriminator to dispatch on. -/
theorem noTypeF_getF : ∀ (fs : ValFields), noTypeF fs = true → getF fs "@type" = none
  | ValFields.fnil, _ => rfl
  | ValFields.fcons k v t, h => by
      simp only [noTypeF, Bool.and_eq_true, bne_iff_ne, ne_eq] at h
      simpa [getF, h.1.1] using noTypeF_getF t h.2

/-- On a type-free object the type-specific block hands the fields through. -/
theorem specialStep_noType (fs : ValFields) (h : noTypeF fs = true) :
    specialStep fs = StepRes.next fs := by
  simp [specialStep, noTypeF_getF fs h]

/-- Primitives are untouched by pruning. -/
theorem isCleanV_of_not_container (v : Val) (h : isContainer v = false) :
    isCleanV v = true := by
  cases v <;> simp_all [isContainer, isCleanV]

mutual

/-- An already-pruned type-free value is a fixed point of the cleaner. -/
theorem cleanFixV : ∀ (v : Val), isCleanV v = true → noTypeV v = true →
    ∀ fuel, sizeVal v + 1 ≤ fuel → cleanObjectF fuel v = some v
  | vNull, _, _, fuel, hf => by
      obtain ⟨f, rfl⟩ : ∃ f, fuel = f + 1 := ⟨fuel - 1, by omega⟩
      rfl
  | vBool b, _, _, fuel, hf => by
      obtain ⟨f, rfl⟩ : ∃ f, fuel = f + 1 := ⟨fuel - 1, by omega⟩
      rfl
  | vNum d, _, _, fuel, hf => by
      obtain ⟨f, rfl⟩ : ∃ f, fuel = f + 1 := ⟨fuel - 1, by omega⟩
      rfl
  | vStr s, _, _, fuel, hf => by
      obtain ⟨f, rfl⟩ : ∃ f, fuel = f + 1 := ⟨fuel - 1, by omega⟩
      rfl
  | vArr l, hc, hn, fuel, hf => by
      obtain ⟨f, rfl⟩ : ∃ f, fuel = f + 1 := ⟨fuel - 1, by omega⟩
      have hsz : sizeVal (vArr l) = 1 + sizeList l := rfl
      rw [hsz] at hf
      have hl := cleanFixL l (by simpa [isCleanV] using hc) (by simpa [noTypeV] using hn)
        f (by omega)
      simp [cleanObjectF, hl]
  | vObj fs, hc, hn, fuel, hf => by
      obtain ⟨f, rfl⟩ : ∃ f, fuel = f + 1 := ⟨fuel - 1, by omega⟩
      have hsz : sizeVal (vObj fs) = 1 + sizeFields fs := rfl
      rw [hsz] at hf
      have hnf : noTypeF fs = true := by simpa [noTypeV] using hn
      have hfs := cleanFixF fs (by simpa [isCleanV] using hc) hnf f (by omega)
      simp [cleanObjectF, specialStep_noType fs hnf, hfs]

/-- `cleanFixV` over array elements. -/
theorem cleanFixL : ∀ (l : ValList), isCleanL l = true → noTypeL l = true →
    ∀ fuel, sizeList l + 1 ≤ fuel → cleanArrF fuel l = some l
  | ValList.nil, _, _, fuel, hf => by
      obtain ⟨f, rfl⟩ : ∃ f, fuel = f + 1 := ⟨fuel - 1, by omega⟩
      rfl
  | ValList.cons v t, hc, hn, fuel, hf => by
      obtain ⟨f, rfl⟩ : ∃ f, fuel = f + 1 := ⟨fuel - 1, by omega⟩
      have hsz : sizeList (ValList.cons v t) = 1 + sizeVal v + sizeList t := rfl
      rw [hsz] at hf
      simp only [isCleanL, Bool.and_eq_true] at hc
      simp only [noTypeL, Bool.and_eq_true] at hn
      obtain ⟨⟨⟨hv0, hv1⟩, hv2⟩, hv3⟩ := hc
      have hv : (if isContainer v then cleanObjectF f v else some v) = some v := by
        by_cases hcv : isContainer v = true
        · rw [if_pos hcv, cleanFixV v hv2 hn.1 f (by omega)]
        · rw [if_neg (by simp [hcv])]
      have ht := cleanFixL t hv3 hn.2 f (by omega)
      have hnull : ¬(v = vNull ∨ v = vStr "") := by
        rintro (rfl | rfl) <;> simp at hv0 hv1
      simp [cleanArrF, hv, ht, hnull]

/-- `cleanFixV` over object fields. -/
theorem cleanFixF : ∀ (fs : ValFields), isCleanF fs = true → noTypeF fs = true →
    ∀ fuel, sizeFields fs + 1 ≤ fuel → cleanFieldsF fuel fs = some fs
  | ValFields.fnil, _, _, fuel, hf => by
      obtain ⟨f, rfl⟩ : ∃ f, fuel = f + 1 := ⟨fuel - 1, by omega⟩
      rfl
  | ValFields.fcons k v t, hc, hn, fuel, hf => by
      obtain ⟨f, rfl⟩ : ∃ f, fuel = f + 1 := ⟨fuel - 1, by omega⟩
      have hsz : sizeFields (ValFields.fcons k v t) = 1 + sizeVal v + sizeFields t := rfl
      rw [hsz] at hf
      simp only [isCleanF, Bool.and_eq_true] at hc
      simp only [noTypeF, Bool.and_eq_true] at hn
      obtain ⟨⟨hkeep, hcv⟩, hct⟩ := hc
      have hv : (if isContainer v then cleanObjectF f v else some v) = some v := by
        by_cases hcv2 : isContainer v = true
        · rw [if_pos hcv2, cleanFixV v hcv hn.1.2 f (by omega)]
        · rw [if_neg (by simp [hcv2])]
      have ht := cleanFixF t hct hn.2 f (by omega)
      simp [cleanFieldsF, hv, ht, hkeep]

end

mutual

/-- Cleaning a type-free value succeeds and yields a pruned type-free value. -/
theorem cleanNoTypeV : ∀ (v : Val), noTypeV v = true → ∀ fuel, sizeVal v + 1 ≤ fuel →
    ∃ w, cleanObjectF fuel v = some w ∧ isCleanV w = true ∧ noTypeV w = true
  | vNull, _, fuel, hf => by
      obtain ⟨f, rfl⟩ : ∃ f, fuel = f + 1 := ⟨fuel - 1, by omega⟩
      exact ⟨vNull, rfl, by decide, by decide⟩
  | vBool b, _, fuel, hf => by
      obtain ⟨f, rfl⟩ : ∃ f, fuel = f + 1 := ⟨fuel - 1, by omega⟩
      exact ⟨vBool b, rfl, by simp [isCleanV], by simp [noTypeV]⟩
  | vNum d, _, fuel, hf => by
      obtain ⟨f, rfl⟩ : ∃ f, fuel = f + 1 := ⟨fuel - 1, by omega⟩
      exact ⟨vNum d, rfl, by simp [isCleanV], by simp [noTypeV]⟩
  | vStr s, _, fuel, hf => by
      obtain ⟨f, rfl⟩ : ∃ f, fuel = f + 1 := ⟨fuel - 1, by omega⟩
      exact ⟨vStr s, rfl, by simp [isCleanV], by simp [noTypeV]⟩
  | vArr l, hn, fuel, hf => by
      obtain ⟨f, rfl⟩ : ∃ f, fuel = f + 1 := ⟨fuel - 1, by omega⟩
      have hsz : sizeVal (vArr l) = 1 + sizeList l := rfl
      rw [hsz] at hf
      obtain ⟨m, hm, hcm, hnm⟩ := cleanNoTypeL l (by simpa [noTypeV] using hn) f (by omega)
      exact ⟨vArr m, by simp [cleanObjectF, hm], by simpa [isCleanV] using hcm,
        by simpa [noTypeV] using hnm⟩
  | vObj fs, hn, fuel, hf => by
      obtain ⟨f, rfl⟩ : ∃ f, fuel = f + 1 := ⟨fuel - 1, by omega⟩
      have hsz : sizeVal (vObj fs) = 1 + sizeFields fs := rfl
      rw [hsz] at hf
      have hnf : noTypeF fs = true := by simpa [noTypeV] using hn
      obtain ⟨gs, hg, hcg, hng⟩ := cleanNoTypeF fs hnf f (by omega)
      exact ⟨vObj gs, by simp [cleanObjectF, specialStep_noType fs hnf, hg],
        by simpa [isCleanV] using hcg, by simpa [noTypeV] using hng⟩

/-- `cleanNoTypeV` over array elements. -/
theorem cleanNoTypeL : ∀ (l : ValList), noTypeL l = true → ∀ fuel, sizeList l + 1 ≤ fuel →
    ∃ m, cleanArrF fuel l = some m ∧ isCleanL m = true ∧ noTypeL m = true
  | ValList.nil, _, fuel, hf => by
      obtain ⟨f, rfl⟩ : ∃ f, fuel = f + 1 := ⟨fuel - 1, by omega⟩
      exact ⟨ValList.nil, rfl, by decide, by decide⟩
  | ValList.cons v t, hn, fuel, hf => by
      obtain ⟨f, rfl⟩ : ∃ f, fuel = f + 1 := ⟨fuel - 1, by omega⟩
      have hsz : sizeList (ValList.cons v t) = 1 + sizeVal v + sizeList t := rfl
      rw [hsz] at hf
      simp only [noTypeL, Bool.and_eq_true] at hn
      have hv : ∃ v2, (if isContainer v then cleanObjectF f v else some v) = some v2 ∧
          isCleanV v2 = true ∧ noTypeV v2 = true := by
        by_cases hcv : isContainer v = true
        · obtain ⟨w, hw, hcw, hnw⟩ := cleanNoTypeV v hn.1 f (by omega)
          exact ⟨w, by rw [if_pos hcv]; exact hw, hcw, hnw⟩
        · exact ⟨v, by rw [if_neg (by simp [hcv])],
            isCleanV_of_not_container v (by simpa using hcv), hn.1⟩
      obtain ⟨v2, hv2, hcv2, hnv2⟩ := hv
      obtain ⟨m, hm, hcm, hnm⟩ := cleanNoTypeL t hn.2 f (by omega)
      by_cases hdrop : (v2 = vNull ∨ v2 = vStr "")
      · exact ⟨m, by simp [cleanArrF, hv2, hm, hdrop], hcm, hnm⟩
      · refine ⟨ValList.cons v2 m, by simp [cleanArrF, hv2, hm, hdrop], ?_, ?_⟩
        · push_neg at hdrop
          simp [isCleanL, hcv2, hcm, hdrop.1, hdrop.2]
        · simp [noTypeL, hnv2, hnm]

/-- `cleanNoTypeV` over object fields. -/
theorem cleanNoTypeF : ∀ (fs : ValFields), noTypeF fs = true → ∀ fuel, sizeFields fs + 1 ≤ fuel →
    ∃ gs, cleanFieldsF fuel fs = some gs ∧ isCleanF gs = true ∧ noTypeF gs = true
  | ValFields.fnil, _, fuel, hf => by
      obtain ⟨f, rfl⟩ : ∃ f, fuel = f + 1 := ⟨fuel - 1, by omega⟩
      exact ⟨ValFields.fnil, rfl, by decide, by decide⟩
  | ValFields.fcons k v t, hn, fuel, hf => by
      obtain ⟨f, rfl⟩ : ∃ f, fuel = f + 1 := ⟨fuel - 1, by omega⟩
      have hsz : sizeFields (ValFields.fcons k v t) = 1 + sizeVal v + sizeFields t := rfl
      rw [hsz] at hf
      simp only [noTypeF, Bool.and_eq_true] at hn
      have hv : ∃ v2, (if isContainer v then cleanObjectF f v else some v) = some v2 ∧
          isCleanV v2 = true ∧ noTypeV v2 = true := by
        by_cases hcv : isContainer v = true
        · obtain ⟨w, hw, hcw, hnw⟩ := cleanNoTypeV v hn.1.2 f (by omega)
          exact ⟨w, by rw [if_pos hcv]; exact hw, hcw, hnw⟩
        · exact ⟨v, by rw [if_neg (by simp [hcv])],
            isCleanV_of_not_container v (by simpa using hcv), hn.1.2⟩
      obtain ⟨v2, hv2, hcv2, hnv2⟩ := hv
      obtain ⟨gs, hg, hcg, hng⟩ := cleanNoTypeF t hn.2 f (by omega)
      by_cases hkeep : keepVal v2 = true
      · refine ⟨ValFields.fcons k v2 gs, by simp [cleanFieldsF, hv2, hg, hkeep], ?_, ?_⟩
        · simp [isCleanF, hkeep, hcv2, hcg]
        · simp [noTypeF, hn.1.1, hnv2, hng]
      · exact ⟨gs, by simp [cleanFieldsF, hv2, hg, hkeep], hcg, hng⟩

end

/-- C2, counterexample: cleaning is not idempotent on every document.  In a
document holding a business node whose name is an empty object, the first pass
prunes the name away (an empty object fails the keep test) while the node
itself survives because the name key was still present when the business rules
ran; the second pass then sees a nameless business and removes the node, so the
two passes disagree. -/
theorem c2_second_pass_differs :
    cleanObject (vObj (fcons "a" (vObj (fcons "@type" (vStr "LocalBusiness")
      (fcons "name" (vObj fnil) (fcons "telephone" (vStr "555-123-4567") fnil)))) fnil)) =
      some (vObj (fcons "a" (vObj (fcons "@type" (vStr "LocalBusiness")
        (fcons "telephone" (vStr "+1-555-123-4567") fnil))) fnil)) ∧
    cleanObject (vObj (fcons "a" (vObj (fcons "@type" (vStr "LocalBusiness")
      (fcons "telephone" (vStr "+1-555-123-4567") fnil))) fnil)) = some (vObj fnil) := by
  decide

/-- C2 amended: on documents carrying no `@type` key anywhere — documents on
which the cleaner performs pure pruning with no type-specific repair — cleaning
is idempotent: a second pass returns its input unchanged.  (On general
documents idempotence fails, see the counterexample: a type-specific rule can
react to pruning performed by the same pass.) -/
theorem c2_clean_idempotent_no_type (v w : Val) (hn : noTypeV v = true)
    (h : cleanObject v = some w) : cleanObject w = some w := by
  obtain ⟨w2, hw2, hcw2, hnw2⟩ := cleanNoTypeV v hn (fuelFor v)
    (by simp only [fuelFor]; omega)
  rw [cleanObject] at h
  rw [h] at hw2
  injection hw2 with he
  subst he
  exact cleanFixV w hcw2 hnw2 (fuelFor w) (by simp only [fuelFor]; omega)

/-- C2 witness: the idempotence theorem applied to a concrete type-free
document — the empty-string field is pruned once, and the pruned document is a
fixed point. -/
theorem c2_clean_idempotent_no_type_witness :
    noTypeV (vObj (fcons "a" (vStr "") (fcons "b" (vStr "x") fnil))) = true ∧
    cleanObject (vObj (fcons "a" (vStr "") (fcons "b" (vStr "x") fnil))) =
      some (vObj (fcons "b" (vStr "x") fnil)) ∧
    cleanObject (vObj (fcons "b" (vStr "x") fnil)) =
      some (vObj (fcons "b" (vStr "x") fnil)) :=
  ⟨by decide, by decide,
    c2_clean_idempotent_no_type (vObj (fcons "a" (vStr "") (fcons "b" (vStr "x") fnil)))
      (vObj (fcons "b" (vStr "x") fnil)) (by decide) (by decide)⟩

end SchemaGen
